import Mathlib

/-!
Verification of the UKV document modality (document storage layer over a
binary key-value engine).

The development shallowly embeds the document layer of the repository:

* `src/src/deprecated/modality_nlohmann_docs.cpp` — the primary document
  modality: `parse_any`, `dump_any`, `read_unique_docs`, `read_docs`,
  `replace_docs`, `read_modify_write`, `ukv_docs_write`, `ukv_docs_read`,
  `export_scalar_column`, `export_string_column`, `from_chars`;
* `src/src/logic_docs.cpp` — the older variant with `update_docs`,
  `update_fields`, `ukv_docs_write`, `ukv_docs_read`.

Documents are modeled as a recursive inductive `Doc`; machine integers are
`Nat`/`Int` with explicit bounds; IEEE-754 doubles are carried as their
64-bit bit patterns (`Nat` below `2 ^ 64`), which is exact for the binary
at-rest format.  The third-party JSON library (nlohmann/json) is not part of
the repository sources, so its codecs are modelled from the specification:
the MessagePack codec is modelled in full from the MessagePack format
description (spec section 4.1 fixes MessagePack as the at-rest form), the
JSON text serializer is modelled including its failure on binary values
(RFC 8259 has no binary representation), and the BSON/CBOR/UBJSON branches
are left as parse failures / dump errors since no claim exercises them.
-/

namespace Ukv

/-! ## Bytes and big-endian arithmetic -/

/-- Big-endian byte list of width `k` for the value `n` (low bytes of `n` if
`n` does not fit). -/
def beBytes : Nat → Nat → List Nat
  | 0, _ => []
  | k + 1, n => beBytes k (n / 256) ++ [n % 256]

/-- Little-endian byte list of width `k` for the value `n`.  Used for the
raw-binary dump path, which copies scalars in host (little-endian) order. -/
def leBytes : Nat → Nat → List Nat
  | 0, _ => []
  | k + 1, n => n % 256 :: leBytes k (n / 256)

/-- Value of a big-endian byte list. -/
def beVal (bs : List Nat) : Nat := bs.foldl (fun a b => a * 256 + b) 0

/-- Split off the first `n` bytes of a list, or fail if it is too short. -/
def readN (n : Nat) (bs : List Nat) : Option (List Nat × List Nat) :=
  if n ≤ bs.length then some (bs.take n, bs.drop n) else none

/-- Read a `k`-byte big-endian integer off the front of a byte list. -/
def readBE (k : Nat) (bs : List Nat) : Option (Nat × List Nat) :=
  (readN k bs).map (fun p => (beVal p.1, p.2))

/-! ## Documents

The in-memory document tree of the source (`json_t`, an instantiation of
`nlohmann::basic_json` over `std::map`, `std::vector`, `std::string`,
`bool`, `int64_t`, `uint64_t`, `double`).  Strings and binary blobs are byte
lists; object members are key/value pairs kept, as in `std::map`, in
strictly ascending key order (the well-formedness predicate `Doc.wf`
below).  Doubles are represented by their IEEE-754 bit patterns.  The
`discarded` state marks a parse failure and is never storable. -/

inductive Doc where
  | null : Doc
  | discarded : Doc
  | bool (b : Bool) : Doc
  | int (n : Int) : Doc
  | uint (n : Nat) : Doc
  | float (bits : Nat) : Doc
  | str (s : List Nat) : Doc
  | bin (b : List Nat) : Doc
  | arr (xs : List Doc) : Doc
  | obj (kvs : List (List Nat × Doc)) : Doc

instance : Inhabited Doc := ⟨Doc.null⟩

/-- Lexicographic strict order on byte strings, as `std::string::operator<`
compares `std::map` keys (unsigned byte comparison). -/
def keyLt : List Nat → List Nat → Bool
  | [], [] => false
  | [], _ :: _ => true
  | _ :: _, [] => false
  | a :: as, b :: bs => a < b || (a == b && keyLt as bs)

/-- Bytes of a string are bytes: each below 256. -/
def bytesOk (s : List Nat) : Bool := s.all (· < 256)

/-- Keys of an object are strictly ascending, as in `std::map` iteration. -/
def keysSorted : List (List Nat) → Bool
  | [] => true
  | [_] => true
  | a :: b :: t => keyLt a b && keysSorted (b :: t)

mutual

/-- Well-formed documents: the values actually representable by the source
`json_t` type.  Integers are 64-bit, doubles are 64-bit patterns, bytes are
bytes, containers are below the 32-bit serialization limits, object members
are strictly ascending by key (an `std::map`), and the `discarded` parse
failure marker is never storable. -/
def Doc.wf : Doc → Bool
  | .null => true
  | .discarded => false
  | .bool _ => true
  | .int n => decide (-(2 ^ 63 : Int) ≤ n) && decide (n < 2 ^ 63)
  | .uint n => decide (n < 2 ^ 64)
  | .float b => decide (b < 2 ^ 64)
  | .str s => bytesOk s && decide (s.length < 2 ^ 32)
  | .bin b => bytesOk b && decide (b.length < 2 ^ 32)
  | .arr xs => decide (xs.length < 2 ^ 32) && Doc.wfList xs
  | .obj kvs =>
    decide (kvs.length < 2 ^ 32) && keysSorted (kvs.map Prod.fst) && Doc.wfKvs kvs

/-- Well-formedness of every element of an array. -/
def Doc.wfList : List Doc → Bool
  | [] => true
  | x :: xs => Doc.wf x && Doc.wfList xs

/-- Well-formedness of every member of an object. -/
def Doc.wfKvs : List (List Nat × Doc) → Bool
  | [] => true
  | (k, v) :: t =>
    bytesOk k && decide (k.length < 2 ^ 32) && Doc.wf v && Doc.wfKvs t

end

mutual

/-- Numeric normalization performed by a MessagePack round-trip: the writer
serializes a non-negative signed integer through the unsigned encodings, so
the reader returns it as an unsigned value. -/
def Doc.norm : Doc → Doc
  | .int n => if 0 ≤ n then .uint n.toNat else .int n
  | .arr xs => .arr (Doc.normList xs)
  | .obj kvs => .obj (Doc.normKvs kvs)
  | d => d

/-- Normalization mapped over an array. -/
def Doc.normList : List Doc → List Doc
  | [] => []
  | x :: xs => Doc.norm x :: Doc.normList xs

/-- Normalization mapped over object members. -/
def Doc.normKvs : List (List Nat × Doc) → List (List Nat × Doc)
  | [] => []
  | (k, v) :: t => (k, Doc.norm v) :: Doc.normKvs t

end

mutual

/-- Number of nodes of a document; a fuel bound for the decoder. -/
def Doc.size : Doc → Nat
  | .null => 1
  | .discarded => 1
  | .bool _ => 1
  | .int _ => 1
  | .uint _ => 1
  | .float _ => 1
  | .str _ => 1
  | .bin _ => 1
  | .arr xs => 1 + Doc.sizeList xs
  | .obj kvs => 1 + Doc.sizeKvs kvs

/-- Total size of the elements of an array. -/
def Doc.sizeList : List Doc → Nat
  | [] => 0
  | x :: xs => Doc.size x + Doc.sizeList xs

/-- Total size of the values of an object. -/
def Doc.sizeKvs : List (List Nat × Doc) → Nat
  | [] => 0
  | (_, v) :: t => Doc.size v + Doc.sizeKvs t

end

/-! ## The MessagePack codec (the InternalBinary at-rest form)

Modelled from the spec: the source serializes documents with the third-party
library's MessagePack writer and reader (`write_msgpack` / `from_msgpack`),
whose code is not part of this repository.  The definitions below follow the
MessagePack format description: minimal-width unsigned encodings for
non-negative integers, two's-complement signed encodings for negative ones,
`float64` for doubles, `str`/`bin`/`array`/`map` families with fixed and
8/16/32-bit length headers.  The reader is lenient (trailing bytes are
ignored), mirroring the `strict = false` arguments at the `parse_any` call
sites, and rejects the reserved byte `0xC1` and the `ext` families. -/

/-- Unsigned integer encoding: positive fixint, `uint8/16/32/64`. -/
def encUint (n : Nat) : List Nat :=
  if n < 128 then [n]
  else if n < 2 ^ 8 then [0xCC, n]
  else if n < 2 ^ 16 then 0xCD :: beBytes 2 n
  else if n < 2 ^ 32 then 0xCE :: beBytes 4 n
  else 0xCF :: beBytes 8 n

/-- Signed integer encoding: non-negative values go through the unsigned
encodings (as the source writer does), negative values through negative
fixint and `int8/16/32/64` two's complement. -/
def encInt (n : Int) : List Nat :=
  if 0 ≤ n then encUint n.toNat
  else if -32 ≤ n then [(n + 256).toNat]
  else if -(2 ^ 7) ≤ n then [0xD0, (n + 2 ^ 8).toNat]
  else if -(2 ^ 15) ≤ n then 0xD1 :: beBytes 2 (n + 2 ^ 16).toNat
  else if -(2 ^ 31) ≤ n then 0xD2 :: beBytes 4 (n + 2 ^ 32).toNat
  else 0xD3 :: beBytes 8 (n + 2 ^ 64).toNat

/-- String header: fixstr, `str8/16/32`. -/
def encStrHeader (len : Nat) : List Nat :=
  if len < 32 then [0xA0 + len]
  else if len < 2 ^ 8 then [0xD9, len]
  else if len < 2 ^ 16 then 0xDA :: beBytes 2 len
  else 0xDB :: beBytes 4 len

/-- Binary blob header: `bin8/16/32`. -/
def encBinHeader (len : Nat) : List Nat :=
  if len < 2 ^ 8 then [0xC4, len]
  else if len < 2 ^ 16 then 0xC5 :: beBytes 2 len
  else 0xC6 :: beBytes 4 len

/-- Array header: fixarray, `array16/32`. -/
def encArrHeader (len : Nat) : List Nat :=
  if len < 16 then [0x90 + len]
  else if len < 2 ^ 16 then 0xDC :: beBytes 2 len
  else 0xDD :: beBytes 4 len

/-- Map header: fixmap, `map16/32`. -/
def encMapHeader (len : Nat) : List Nat :=
  if len < 16 then [0x80 + len]
  else if len < 2 ^ 16 then 0xDE :: beBytes 2 len
  else 0xDF :: beBytes 4 len

mutual

/-- MessagePack encoding of a document.  A discarded document writes
nothing, as the source writer ignores the discarded state. -/
def enc : Doc → List Nat
  | .null => [0xC0]
  | .discarded => []
  | .bool false => [0xC2]
  | .bool true => [0xC3]
  | .int n => encInt n
  | .uint n => encUint n
  | .float bits => 0xCB :: beBytes 8 bits
  | .str s => encStrHeader s.length ++ s
  | .bin b => encBinHeader b.length ++ b
  | .arr xs => encArrHeader xs.length ++ encList xs
  | .obj kvs => encMapHeader kvs.length ++ encKvs kvs

/-- Concatenated encodings of array elements. -/
def encList : List Doc → List Nat
  | [] => []
  | x :: xs => enc x ++ encList xs

/-- Concatenated encodings of object members (string key, then value). -/
def encKvs : List (List Nat × Doc) → List Nat
  | [] => []
  | (k, v) :: t => encStrHeader k.length ++ k ++ enc v ++ encKvs t

end

/-- Two's complement reading of a `w`-bit value. -/
def twosComp (w : Nat) (v : Nat) : Int :=
  if v < 2 ^ (w - 1) then (v : Int) else (v : Int) - 2 ^ w

/-- Widening of an IEEE-754 single-precision bit pattern to the
double-precision bit pattern denoting the same value (the reader stores a
decoded `float32` as a double). -/
def f32ToF64Bits (n : Nat) : Nat :=
  let s := n / 2 ^ 31 % 2
  let e := n / 2 ^ 23 % 2 ^ 8
  let m := n % 2 ^ 23
  if e = 255 then s * 2 ^ 63 + 2047 * 2 ^ 52 + m * 2 ^ 29
  else if e = 0 then
    if m = 0 then s * 2 ^ 63
    else
      let p := Nat.log2 m
      s * 2 ^ 63 + (874 + p) * 2 ^ 52 + (m - 2 ^ p) * 2 ^ (52 - p)
  else s * 2 ^ 63 + (e + 896) * 2 ^ 52 + m * 2 ^ 29

/-- Insertion of a member into the sorted member list of an object, as
`std::map::operator[]` followed by assignment: an existing key keeps its
position and takes the new value. -/
def objInsert : List (List Nat × Doc) → List Nat → Doc → List (List Nat × Doc)
  | [], k, v => [(k, v)]
  | (k0, v0) :: t, k, v =>
    if keyLt k k0 then (k, v) :: (k0, v0) :: t
    else if k == k0 then (k0, v) :: t
    else (k0, v0) :: objInsert t k v

/-- Read a MessagePack string off the front of a byte list: the only form
the reader accepts as an object key. -/
def deStr (bs : List Nat) : Option (List Nat × List Nat) :=
  match bs with
  | [] => none
  | b :: rest =>
    if 0xA0 ≤ b ∧ b < 0xC0 then readN (b - 0xA0) rest
    else if b = 0xD9 then
      match readBE 1 rest with
      | some (l, rest2) => readN l rest2
      | none => none
    else if b = 0xDA then
      match readBE 2 rest with
      | some (l, rest2) => readN l rest2
      | none => none
    else if b = 0xDB then
      match readBE 4 rest with
      | some (l, rest2) => readN l rest2
      | none => none
    else none

set_option maxRecDepth 8000

mutual

/-- MessagePack decoding of one value off the front of a byte list,
returning the value and the unconsumed tail.  `fuel` bounds the recursion
depth; any call with fuel exceeding the number of encoded nodes succeeds on
encoder output.  Reserved and `ext` bytes fail. -/
def deVal : Nat → List Nat → Option (Doc × List Nat)
  | 0, _ => none
  | _ + 1, [] => none
  | fuel + 1, b :: rest =>
    if b < 0x80 then some (.uint b, rest)
    else if b < 0x90 then deMapN fuel (b - 0x80) [] rest
    else if b < 0xA0 then deArrN fuel (b - 0x90) [] rest
    else if b < 0xC0 then (readN (b - 0xA0) rest).map (fun p => (.str p.1, p.2))
    else if b = 0xC0 then some (.null, rest)
    else if b = 0xC2 then some (.bool false, rest)
    else if b = 0xC3 then some (.bool true, rest)
    else if b = 0xC4 then
      match readBE 1 rest with
      | some (l, r) =>
        match readN l r with
        | some (s, r2) => some (.bin s, r2)
        | none => none
      | none => none
    else if b = 0xC5 then
      match readBE 2 rest with
      | some (l, r) =>
        match readN l r with
        | some (s, r2) => some (.bin s, r2)
        | none => none
      | none => none
    else if b = 0xC6 then
      match readBE 4 rest with
      | some (l, r) =>
        match readN l r with
        | some (s, r2) => some (.bin s, r2)
        | none => none
      | none => none
    else if b = 0xCA then
      match readBE 4 rest with
      | some (v, r) => some (.float (f32ToF64Bits v), r)
      | none => none
    else if b = 0xCB then
      match readBE 8 rest with
      | some (v, r) => some (.float v, r)
      | none => none
    else if b = 0xCC then (readBE 1 rest).map (fun p => (.uint p.1, p.2))
    else if b = 0xCD then (readBE 2 rest).map (fun p => (.uint p.1, p.2))
    else if b = 0xCE then (readBE 4 rest).map (fun p => (.uint p.1, p.2))
    else if b = 0xCF then (readBE 8 rest).map (fun p => (.uint p.1, p.2))
    else if b = 0xD0 then (readBE 1 rest).map (fun p => (.int (twosComp 8 p.1), p.2))
    else if b = 0xD1 then (readBE 2 rest).map (fun p => (.int (twosComp 16 p.1), p.2))
    else if b = 0xD2 then (readBE 4 rest).map (fun p => (.int (twosComp 32 p.1), p.2))
    else if b = 0xD3 then (readBE 8 rest).map (fun p => (.int (twosComp 64 p.1), p.2))
    else if b = 0xD9 then
      match readBE 1 rest with
      | some (l, r) =>
        match readN l r with
        | some (s, r2) => some (.str s, r2)
        | none => none
      | none => none
    else if b = 0xDA then
      match readBE 2 rest with
      | some (l, r) =>
        match readN l r with
        | some (s, r2) => some (.str s, r2)
        | none => none
      | none => none
    else if b = 0xDB then
      match readBE 4 rest with
      | some (l, r) =>
        match readN l r with
        | some (s, r2) => some (.str s, r2)
        | none => none
      | none => none
    else if b = 0xDC then
      match readBE 2 rest with
      | some (n, r) => deArrN fuel n [] r
      | none => none
    else if b = 0xDD then
      match readBE 4 rest with
      | some (n, r) => deArrN fuel n [] r
      | none => none
    else if b = 0xDE then
      match readBE 2 rest with
      | some (n, r) => deMapN fuel n [] r
      | none => none
    else if b = 0xDF then
      match readBE 4 rest with
      | some (n, r) => deMapN fuel n [] r
      | none => none
    else if 0xE0 ≤ b then some (.int ((b : Int) - 256), rest)
    else none
termination_by fuel _ => (fuel, 0)

/-- Decode `n` array elements, accumulating them in order. -/
def deArrN : Nat → Nat → List Doc → List Nat → Option (Doc × List Nat)
  | _, 0, acc, bs => some (.arr acc, bs)
  | fuel, n + 1, acc, bs =>
    match deVal fuel bs with
    | some (d, r) => deArrN fuel n (acc ++ [d]) r
    | none => none
termination_by fuel n _ _ => (fuel, n + 1)

/-- Decode `n` object members, inserting each into the member map as the
reader's document builder does. -/
def deMapN : Nat → Nat → List (List Nat × Doc) → List Nat → Option (Doc × List Nat)
  | _, 0, acc, bs => some (.obj acc, bs)
  | fuel, n + 1, acc, bs =>
    match deStr bs with
    | some (k, r) =>
      match deVal fuel r with
      | some (v, r2) => deMapN fuel n (objInsert acc k v) r2
      | none => none
    | none => none
termination_by fuel n _ _ => (fuel, n + 1)

end

/-! ## IEEE-754 values

Support definitions interpreting double bit patterns as exact rational
values and back.  They model the numeric conversions the source delegates to
the hardware and the C library: every finite IEEE-754 double is a rational,
so this interpretation is exact.  No theorem of this development depends on
the rounding details; the definitions make the modeled functions total and
executable. -/

/-- Class of an IEEE-754 value: not-a-number, a signed infinity, or a finite
value given as an exact rational. -/
inductive FClass where
  | nan : FClass
  | inf (neg : Bool) : FClass
  | fin (q : Rat) : FClass
deriving DecidableEq, Repr

/-- Interpretation of a double bit pattern. -/
def doubleClass (bits : Nat) : FClass :=
  let s : Nat := bits / 2 ^ 63 % 2
  let e : Nat := bits / 2 ^ 52 % 2 ^ 11
  let m : Nat := bits % 2 ^ 52
  if e = 2047 then
    if m = 0 then .inf (s = 1) else .nan
  else
    let mag : Rat :=
      if e = 0 then (m : Rat) / ((2 ^ 1074 : Nat) : Rat)
      else ((2 ^ 52 + m : Nat) : Rat) * ((2 ^ e : Nat) : Rat) / ((2 ^ 1075 : Nat) : Rat)
    .fin (if s = 1 then -mag else mag)

/-- Power of two as a rational, for a possibly negative exponent. -/
def ratPow2 (z : Int) : Rat :=
  if 0 ≤ z then ((2 ^ z.toNat : Nat) : Rat) else 1 / ((2 ^ (-z).toNat : Nat) : Rat)

/-- Power of ten as a rational, for a possibly negative exponent. -/
def ratPow10 (z : Int) : Rat :=
  if 0 ≤ z then ((10 ^ z.toNat : Nat) : Rat) else 1 / ((10 ^ (-z).toNat : Nat) : Rat)

/-- Rounding of a non-negative rational to the nearest natural, ties to
even. -/
def rne (q : Rat) : Nat :=
  let n : Int := q.floor
  let frac : Rat := q - (n : Rat)
  if frac > 1 / 2 then (n + 1).toNat
  else if frac < 1 / 2 then n.toNat
  else if n % 2 = 0 then n.toNat else (n + 1).toNat

/-- Conversion of a rational to an IEEE-754 bit pattern with the given
exponent and mantissa field widths (11/52 for doubles, 8/23 for singles),
rounding to nearest, ties to even, overflowing to infinity. -/
def ratToIEEE (expWidth mantWidth : Nat) (q : Rat) : Nat :=
  let bias : Int := 2 ^ (expWidth - 1) - 1
  let signBit : Nat := if q < 0 then 2 ^ (expWidth + mantWidth) else 0
  let infBits : Nat := signBit + (2 ^ expWidth - 1) * 2 ^ mantWidth
  if q = 0 then signBit
  else
    let a : Rat := if q < 0 then -q else q
    let e1 : Int := (Nat.log2 a.num.natAbs : Int) - (Nat.log2 a.den : Int)
    let e : Int := if a < ratPow2 e1 then e1 - 1 else if ratPow2 (e1 + 1) ≤ a then e1 + 1 else e1
    if e < 1 - bias then
      let m := rne (a * ratPow2 (bias + (mantWidth : Int) - 1))
      if m = 0 then signBit else signBit + m
    else if bias < e then infBits
    else
      let m := rne (a * ratPow2 ((mantWidth : Int) - e))
      if m = 2 ^ (mantWidth + 1) then
        if bias < e + 1 then infBits
        else signBit + (e + 1 + bias).toNat * 2 ^ mantWidth
      else signBit + (e + bias).toNat * 2 ^ mantWidth + (m - 2 ^ mantWidth)

/-- Conversion of a value class to double bits. -/
def classToF64Bits : FClass → Nat
  | .nan => 2047 * 2 ^ 52 + 2 ^ 51
  | .inf neg => (if neg then 2 ^ 63 else 0) + 2047 * 2 ^ 52
  | .fin q => ratToIEEE 11 52 q

/-- Conversion of a value class to single-precision bits. -/
def classToF32Bits : FClass → Nat
  | .nan => 255 * 2 ^ 23 + 2 ^ 22
  | .inf neg => (if neg then 2 ^ 31 else 0) + 255 * 2 ^ 23
  | .fin q => ratToIEEE 8 23 q

/-- NaN test of a double bit pattern. -/
def isNanBits (b : Nat) : Bool :=
  match doubleClass b with
  | .nan => true
  | _ => false

/-- IEEE equality of two double bit patterns (the `==` the library applies
to two `number_float` values): numeric equality of the represented values,
so the two zeros compare equal across their distinct bit patterns, equal
infinities compare equal, and a NaN equals nothing, itself included. -/
def ieeeEqBits (a b : Nat) : Bool :=
  match doubleClass a, doubleClass b with
  | .fin q1, .fin q2 => q1 == q2
  | .inf n1, .inf n2 => n1 == n2
  | _, _ => false

/-- Double bits of `static_cast<double>` of a 64-bit integer (rounded to
nearest, ties to even, as the hardware conversion). -/
def f64OfInt (n : Int) : Nat := classToF64Bits (.fin (n : Rat))

mutual

/-- Document equality in the sense of the source library's `operator==`:
structural on containers, strings and blobs; mixed-width numeric
comparisons as the library performs them — a signed and an unsigned
integer compare after `static_cast` of the unsigned value to `int64_t`
(a two's-complement wrap), an integer and a double compare after
`static_cast` of the integer to `double`, and two doubles compare with the
IEEE `==`, under which the two zeros are equal and a NaN equals nothing.
A discarded value equals nothing, itself included. -/
def jsonEq : Doc → Doc → Bool
  | .null, .null => true
  | .bool a, .bool b => a == b
  | .int a, .int b => a == b
  | .uint a, .uint b => a == b
  | .int a, .uint b => a == twosComp 64 b
  | .uint a, .int b => twosComp 64 a == b
  | .float a, .float b => ieeeEqBits a b
  | .int a, .float b => ieeeEqBits (f64OfInt a) b
  | .float a, .int b => ieeeEqBits a (f64OfInt b)
  | .uint a, .float b => ieeeEqBits (f64OfInt (a : Int)) b
  | .float a, .uint b => ieeeEqBits a (f64OfInt (b : Int))
  | .str a, .str b => a == b
  | .bin a, .bin b => a == b
  | .arr a, .arr b => jsonEqList a b
  | .obj a, .obj b => jsonEqKvs a b
  | _, _ => false

/-- Pointwise document equality of arrays. -/
def jsonEqList : List Doc → List Doc → Bool
  | [], [] => true
  | x :: xs, y :: ys => jsonEq x y && jsonEqList xs ys
  | _, _ => false

/-- Pointwise key and value equality of object members. -/
def jsonEqKvs : List (List Nat × Doc) → List (List Nat × Doc) → Bool
  | [], [] => true
  | (k1, v1) :: xs, (k2, v2) :: ys => k1 == k2 && jsonEq v1 v2 && jsonEqKvs xs ys
  | _, _ => false

end

mutual

/-- Absence of NaN doubles anywhere in a document.  The library compares
two doubles with the IEEE `==`, under which a NaN equals nothing, itself
included, so a NaN-bearing document fails every equality — byte-identical
round trips included — and is excluded from equality statements. -/
def Doc.nanFree : Doc → Bool
  | .null => true
  | .discarded => true
  | .bool _ => true
  | .int _ => true
  | .uint _ => true
  | .float b => !isNanBits b
  | .str _ => true
  | .bin _ => true
  | .arr xs => Doc.nanFreeList xs
  | .obj kvs => Doc.nanFreeKvs kvs

/-- NaN-freeness of every element of an array. -/
def Doc.nanFreeList : List Doc → Bool
  | [] => true
  | x :: xs => Doc.nanFree x && Doc.nanFreeList xs

/-- NaN-freeness of every member value of an object. -/
def Doc.nanFreeKvs : List (List Nat × Doc) → Bool
  | [] => true
  | (_, v) :: t => Doc.nanFree v && Doc.nanFreeKvs t

end

/-! ## Byte-level text scanning -/

/-- ASCII decimal digit test. -/
def isDigitByte (c : Nat) : Bool := 48 ≤ c && c ≤ 57

/-- Split the longest run of leading digits off a byte list. -/
def splitDigits : List Nat → List Nat × List Nat
  | c :: r =>
    if isDigitByte c then
      let p := splitDigits r
      (c :: p.1, p.2)
    else ([], c :: r)
  | [] => ([], [])

/-- Value of a digit run. -/
def digitsVal (ds : List Nat) : Nat := ds.foldl (fun a c => a * 10 + (c - 48)) 0

/-- ASCII whitespace as `isspace` in the C locale. -/
def isWsByte (c : Nat) : Bool := c == 32 || (9 ≤ c && c ≤ 13)

/-- Split leading whitespace off a byte list, counting it. -/
def splitWs : List Nat → Nat × List Nat
  | c :: r =>
    if isWsByte c then
      let p := splitWs (r)
      (p.1 + 1, p.2)
    else (0, c :: r)
  | [] => (0, [])

/-- ASCII lowercasing of a byte. -/
def lowerByte (c : Nat) : Nat := if 65 ≤ c && c ≤ 90 then c + 32 else c

/-- Case-insensitive test that `s` starts with the byte word `t`. -/
def startsWithCI : List Nat → List Nat → Bool
  | [], _ => true
  | _ :: _, [] => false
  | c :: t, d :: s => lowerByte d == c && startsWithCI t s

/-- Modelled from the spec: the C library `strtod`/`strtof` lexical scan the
source's `from_chars` wrapper delegates to for floating-point targets.
Returns the number of consumed bytes (zero when no conversion is performed,
as when `strtod` returns the begin pointer) and the value class read.
Decimal forms with optional fraction and exponent, `inf`, `infinity` and
`nan` are modeled; hexadecimal forms are not, as no claim depends on them. -/
def strtodScan (s : List Nat) : Nat × FClass :=
  let pw := splitWs s
  let w := pw.1
  let sgn : Bool × Nat × List Nat :=
    match pw.2 with
    | 43 :: r => (false, 1, r)
    | 45 :: r => (true, 1, r)
    | _ => (false, 0, pw.2)
  let neg := sgn.1
  let sg := sgn.2.1
  let r2 := sgn.2.2
  if startsWithCI [105, 110, 102, 105, 110, 105, 116, 121] r2 then
    (w + sg + 8, .inf neg)
  else if startsWithCI [105, 110, 102] r2 then (w + sg + 3, .inf neg)
  else if startsWithCI [110, 97, 110] r2 then (w + sg + 3, .nan)
  else
    let pi := splitDigits r2
    let ip := pi.1
    let pf : List Nat × List Nat × Nat :=
      match pi.2 with
      | 46 :: r =>
        let q := splitDigits r
        (q.1, q.2, q.1.length + 1)
      | _ => ([], pi.2, 0)
    let fp := pf.1
    let r4 := pf.2.1
    let fracConsumed := pf.2.2
    if ip.isEmpty && fp.isEmpty then (0, .fin 0)
    else
      let ex : Int × Nat :=
        match r4 with
        | c :: r =>
          if c == 101 || c == 69 then
            let es : Int × Nat × List Nat :=
              match r with
              | 43 :: rr => (1, 1, rr)
              | 45 :: rr => (-1, 1, rr)
              | _ => (1, 0, r)
            let ed := (splitDigits es.2.2).1
            if ed.isEmpty then (0, 0)
            else (es.1 * (digitsVal ed : Int), 1 + es.2.1 + ed.length)
          else (0, 0)
        | [] => (0, 0)
      let mag : Rat :=
        ((digitsVal ip * 10 ^ fp.length + digitsVal fp : Nat) : Rat) /
          ((10 ^ fp.length : Nat) : Rat) * ratPow10 ex.1
      (w + sg + ip.length + fracConsumed + ex.2, .fin (if neg then -mag else mag))

/-! ## The JSON text codec

Modelled from the spec: the source's `parse_any`/`dump_any` delegate textual
JSON to the third-party library (`json_t::parse` and
`nlohmann::detail::serializer`), which is not part of this repository.  The
definitions below follow RFC 8259 and the library's documented behavior at
the points the claims touch: a binary value has no JSON text representation
(the serializer throws `type_error.317`), invalid UTF-8 in a string fails
serialization, non-finite doubles serialize as `null`, and parsed integers
come back signed or unsigned by sign and range.  Doubles print here as their
exact decimal expansion where the library prints the shortest
round-tripping decimal; no claim's theorem depends on a double's printed
digits.  Comment skipping and hexadecimal escapes beyond the basic plane
are modeled plainly. -/

/-- Hexadecimal digit character for a value below 16. -/
def hexDigit (n : Nat) : Nat := if n < 10 then 48 + n else 87 + n

/-- Four-digit hexadecimal rendering of a byte value for `\u` escapes. -/
def hex4 (c : Nat) : List Nat :=
  [hexDigit (c / 4096 % 16), hexDigit (c / 256 % 16), hexDigit (c / 16 % 16),
    hexDigit (c % 16)]

/-- JSON string-body escaping of a byte sequence. -/
def jsonEscape : List Nat → List Nat
  | [] => []
  | c :: r =>
    if c == 34 then 92 :: 34 :: jsonEscape r
    else if c == 92 then 92 :: 92 :: jsonEscape r
    else if c == 8 then 92 :: 98 :: jsonEscape r
    else if c == 9 then 92 :: 116 :: jsonEscape r
    else if c == 10 then 92 :: 110 :: jsonEscape r
    else if c == 12 then 92 :: 102 :: jsonEscape r
    else if c == 13 then 92 :: 114 :: jsonEscape r
    else if c < 32 then 92 :: 117 :: (hex4 c ++ jsonEscape r)
    else c :: jsonEscape r

/-- UTF-8 continuation byte test. -/
def utf8Cont (c : Nat) : Bool := 128 ≤ c && c < 192

/-- UTF-8 sequence-form validity of a byte list (the serializer rejects
invalid UTF-8; overlong and surrogate encodings are not distinguished
here). -/
def utf8Valid : List Nat → Bool
  | [] => true
  | c :: r =>
    if c < 0x80 then utf8Valid r
    else if c < 0xC2 then false
    else if c < 0xE0 then
      match r with
      | c1 :: r2 => utf8Cont c1 && utf8Valid r2
      | [] => false
    else if c < 0xF0 then
      match r with
      | c1 :: c2 :: r2 => utf8Cont c1 && utf8Cont c2 && utf8Valid r2
      | _ => false
    else if c < 0xF5 then
      match r with
      | c1 :: c2 :: c3 :: r2 => utf8Cont c1 && utf8Cont c2 && utf8Cont c3 && utf8Valid r2
      | _ => false
    else false

/-- Decimal digit characters of a natural number. -/
def natDecimal (n : Nat) : List Nat := (Nat.toDigits 10 n).map Char.toNat

/-- Decimal digit characters of an integer. -/
def intDecimal (n : Int) : List Nat :=
  if n < 0 then 45 :: natDecimal (-n).toNat else natDecimal n.toNat

/-- Exact decimal text of a double bit pattern; non-finite values render as
`null` as the library does. -/
def f64ExactDecimal (bits : Nat) : List Nat :=
  match doubleClass bits with
  | .nan => [110, 117, 108, 108]
  | .inf _ => [110, 117, 108, 108]
  | .fin q =>
    let neg := q < 0
    let a : Rat := if neg then -q else q
    let k : Nat := Nat.log2 a.den
    let scaled : Nat := a.num.natAbs * 5 ^ k
    let ipart := natDecimal (scaled / 10 ^ k)
    let fdigits := natDecimal (scaled % 10 ^ k)
    let fracPadded := List.replicate (k - fdigits.length) 48 ++ fdigits
    let ftrimmed := (fracPadded.reverse.dropWhile (· == 48)).reverse
    let frac := if ftrimmed.isEmpty then [48] else ftrimmed
    (if neg then [45] else []) ++ ipart ++ 46 :: frac

mutual

/-- JSON text serialization of a document: `none` models a serializer
throw (binary content anywhere in the document, or an invalid UTF-8
string). -/
def jsonDump : Doc → Option (List Nat)
  | .null => some [110, 117, 108, 108]
  | .discarded => some [60, 100, 105, 115, 99, 97, 114, 100, 101, 100, 62]
  | .bool true => some [116, 114, 117, 101]
  | .bool false => some [102, 97, 108, 115, 101]
  | .int n => some (intDecimal n)
  | .uint n => some (natDecimal n)
  | .float bits => some (f64ExactDecimal bits)
  | .str s => if utf8Valid s then some (34 :: (jsonEscape s ++ [34])) else none
  | .bin _ => none
  | .arr xs => (jsonDumpList xs).map (fun l => 91 :: (l ++ [93]))
  | .obj kvs => (jsonDumpKvs kvs).map (fun l => 123 :: (l ++ [125]))

/-- Comma-separated serialization of array elements. -/
def jsonDumpList : List Doc → Option (List Nat)
  | [] => some []
  | [x] => jsonDump x
  | x :: y :: t =>
    match jsonDump x, jsonDumpList (y :: t) with
    | some a, some b => some (a ++ 44 :: b)
    | _, _ => none

/-- Comma-separated serialization of object members. -/
def jsonDumpKvs : List (List Nat × Doc) → Option (List Nat)
  | [] => some []
  | [(k, v)] =>
    if utf8Valid k then
      (jsonDump v).map (fun b => 34 :: (jsonEscape k ++ [34, 58] ++ b))
    else none
  | (k, v) :: t =>
    if utf8Valid k then
      match jsonDump v, jsonDumpKvs t with
      | some b, some c => some (34 :: (jsonEscape k ++ [34, 58] ++ b ++ 44 :: c))
      | _, _ => none
    else none

end

/-- Whitespace skipping for the JSON reader. -/
def jsonSkipWs (s : List Nat) : List Nat := (splitWs s).2

/-- Value of a hexadecimal digit character. -/
def hexVal (c : Nat) : Option Nat :=
  if 48 ≤ c && c ≤ 57 then some (c - 48)
  else if 97 ≤ c && c ≤ 102 then some (c - 87)
  else if 65 ≤ c && c ≤ 70 then some (c - 55)
  else none

/-- UTF-8 encoding of a code point. -/
def utf8Encode (cp : Nat) : List Nat :=
  if cp < 0x80 then [cp]
  else if cp < 0x800 then [0xC0 + cp / 64, 0x80 + cp % 64]
  else if cp < 0x10000 then [0xE0 + cp / 4096, 0x80 + cp / 64 % 64, 0x80 + cp % 64]
  else [0xF0 + cp / 262144, 0x80 + cp / 4096 % 64, 0x80 + cp / 64 % 64, 0x80 + cp % 64]

/-- Value of a four-character hexadecimal escape. -/
def hexQuad (a b c d : Nat) : Option Nat :=
  match hexVal a, hexVal b, hexVal c, hexVal d with
  | some x, some y, some z, some w => some (4096 * x + 256 * y + 16 * z + w)
  | _, _, _, _ => none

/-- Reading of a JSON string body after the opening quote: unescapes, and
returns the bytes with the input after the closing quote. -/
def jsonReadString : List Nat → Option (List Nat × List Nat)
  | [] => none
  | c :: r =>
    if c == 34 then some ([], r)
    else if c == 92 then
      match r with
      | 34 :: r2 => (jsonReadString r2).map (fun p => (34 :: p.1, p.2))
      | 92 :: r2 => (jsonReadString r2).map (fun p => (92 :: p.1, p.2))
      | 47 :: r2 => (jsonReadString r2).map (fun p => (47 :: p.1, p.2))
      | 98 :: r2 => (jsonReadString r2).map (fun p => (8 :: p.1, p.2))
      | 102 :: r2 => (jsonReadString r2).map (fun p => (12 :: p.1, p.2))
      | 110 :: r2 => (jsonReadString r2).map (fun p => (10 :: p.1, p.2))
      | 114 :: r2 => (jsonReadString r2).map (fun p => (13 :: p.1, p.2))
      | 116 :: r2 => (jsonReadString r2).map (fun p => (9 :: p.1, p.2))
      | 117 :: a :: b :: c2 :: d :: r2 =>
        match hexQuad a b c2 d with
        | none => none
        | some cp =>
          if 0xD800 ≤ cp && cp < 0xDC00 then
            match r2 with
            | 92 :: 117 :: a2 :: b2 :: c3 :: d2 :: r3 =>
              match hexQuad a2 b2 c3 d2 with
              | some lo =>
                if 0xDC00 ≤ lo && lo < 0xE000 then
                  (jsonReadString r3).map (fun p =>
                    (utf8Encode (0x10000 + (cp - 0xD800) * 1024 + (lo - 0xDC00)) ++ p.1, p.2))
                else none
              | none => none
            | _ => none
          else if 0xDC00 ≤ cp && cp < 0xE000 then none
          else (jsonReadString r2).map (fun p => (utf8Encode cp ++ p.1, p.2))
      | _ => none
    else if c < 32 then none
    else (jsonReadString r).map (fun p => (c :: p.1, p.2))

/-- Reading of a JSON number, following the reader's lexer: integers
without fraction or exponent come back unsigned when non-negative and
signed when negative, and fall back to a double when out of 64-bit range;
fractional or exponent forms come back as doubles. -/
def jsonReadNumber (s : List Nat) : Option (Doc × List Nat) :=
  let sg : Bool × List Nat := match s with | 45 :: r => (true, r) | _ => (false, s)
  let neg := sg.1
  let pi := splitDigits sg.2
  let ip := pi.1
  if ip.isEmpty then none
  else if 1 < ip.length && ip.head? == some 48 then none
  else
    let pf : Option (List Nat × List Nat) :=
      match pi.2 with
      | 46 :: rr =>
        let q := splitDigits rr
        if q.1.isEmpty then none else some (q.1, q.2)
      | _ => some ([], pi.2)
    match pf with
    | none => none
    | some (fp, r2) =>
      let pe : Option (Int × List Nat) :=
        match r2 with
        | c :: r =>
          if c == 101 || c == 69 then
            let es : Int × List Nat :=
              match r with
              | 43 :: rr => (1, rr)
              | 45 :: rr => (-1, rr)
              | _ => (1, r)
            let ed := splitDigits es.2
            if ed.1.isEmpty then none else some (es.1 * (digitsVal ed.1 : Int), ed.2)
          else some (0, r2)
        | [] => some (0, r2)
      match pe with
      | none => none
      | some (ev, r3) =>
        if fp.isEmpty && ev == 0 && (match r2 with
            | c :: _ => ¬(c == 101 || c == 69)
            | [] => true) then
          if neg then
            if digitsVal ip ≤ 2 ^ 63 then some (.int (-(digitsVal ip : Int)), r3)
            else some (.float (classToF64Bits (.fin (-(digitsVal ip : Int) : Rat))), r3)
          else
            if digitsVal ip < 2 ^ 64 then some (.uint (digitsVal ip), r3)
            else some (.float (classToF64Bits (.fin (digitsVal ip : Rat))), r3)
        else
          let mag : Rat :=
            ((digitsVal ip * 10 ^ fp.length + digitsVal fp : Nat) : Rat) /
              ((10 ^ fp.length : Nat) : Rat) * ratPow10 ev
          some (.float (classToF64Bits (.fin (if neg then -mag else mag))), r3)

mutual

/-- Reading of one JSON value off the front of a byte list. -/
def jsonReadVal : Nat → List Nat → Option (Doc × List Nat)
  | 0, _ => none
  | fuel + 1, s =>
    match jsonSkipWs s with
    | [] => none
    | c :: r =>
      if c == 110 then
        match r with
        | 117 :: 108 :: 108 :: r2 => some (.null, r2)
        | _ => none
      else if c == 116 then
        match r with
        | 114 :: 117 :: 101 :: r2 => some (.bool true, r2)
        | _ => none
      else if c == 102 then
        match r with
        | 97 :: 108 :: 115 :: 101 :: r2 => some (.bool false, r2)
        | _ => none
      else if c == 34 then (jsonReadString r).map (fun p => (.str p.1, p.2))
      else if c == 91 then
        match jsonSkipWs r with
        | 93 :: r2 => some (.arr [], r2)
        | r2 => jsonReadArr fuel [] r2
      else if c == 123 then
        match jsonSkipWs r with
        | 125 :: r2 => some (.obj [], r2)
        | r2 => jsonReadObj fuel [] r2
      else jsonReadNumber (c :: r)
termination_by fuel _ => (fuel, 0)

/-- Reading of the elements of a non-empty JSON array. -/
def jsonReadArr : Nat → List Doc → List Nat → Option (Doc × List Nat)
  | 0, _, _ => none
  | fuel + 1, acc, s =>
    match jsonReadVal fuel s with
    | none => none
    | some (d, r) =>
      match jsonSkipWs r with
      | 44 :: r2 => jsonReadArr fuel (acc ++ [d]) r2
      | 93 :: r2 => some (.arr (acc ++ [d]), r2)
      | _ => none
termination_by fuel _ _ => (fuel, 1)

/-- Reading of the members of a non-empty JSON object. -/
def jsonReadObj : Nat → List (List Nat × Doc) → List Nat → Option (Doc × List Nat)
  | 0, _, _ => none
  | fuel + 1, acc, s =>
    match jsonSkipWs s with
    | 34 :: r =>
      match jsonReadString r with
      | none => none
      | some (k, r2) =>
        match jsonSkipWs r2 with
        | 58 :: r3 =>
          match jsonReadVal fuel r3 with
          | none => none
          | some (v, r4) =>
            match jsonSkipWs r4 with
            | 44 :: r5 => jsonReadObj fuel (objInsert acc k v) r5
            | 125 :: r5 => some (.obj (objInsert acc k v), r5)
            | _ => none
        | _ => none
    | _ => none
termination_by fuel _ _ => (fuel, 1)

end

/-- Top-level JSON text parse: one value, then only trailing whitespace (the
reader rejects trailing content). -/
def jsonParse (s : List Nat) : Doc :=
  match jsonReadVal (s.length + 1) s with
  | some (d, r) => if (jsonSkipWs r).isEmpty then d else .discarded
  | none => .discarded

/-! ## Formats, `parse_any` and `dump_any` -/

/-- Formats of the document API (the `ukv_doc_field_type_t` format values the
modality dispatches on): the internal MessagePack form, textual JSON, the two
patch formats (parsed as JSON text), the raw-binary default, and the three
remaining binary formats of the third-party library. -/
inductive Fmt where
  | msgpack : Fmt
  | json : Fmt
  | jsonPatch : Fmt
  | jsonMergePatch : Fmt
  | binary : Fmt
  | bson : Fmt
  | cbor : Fmt
  | ubjson : Fmt
deriving DecidableEq, Repr

/-- The at-rest storage form: `internal_format_k = ukv_format_msgpack_k`. -/
def internalFormat : Fmt := .msgpack

/-- MessagePack parse in the lenient mode of the call sites
(`strict = false`): one value off the front, trailing bytes ignored; a
failure yields a discarded document (`allow_exceptions = false`). -/
def parseMsgpack (bytes : List Nat) : Doc :=
  match deVal (bytes.length + 1) bytes with
  | some (d, _) => d
  | none => .discarded

/-- Embedding of `parse_any` (`modality_nlohmann_docs.cpp`, lines 108-133):
dispatch a byte string to the reader of the declared format.  The JSON and
patch formats share the JSON text reader; the raw-binary default format
wraps the bytes verbatim in a binary leaf; failures are the discarded
document (`allow_exceptions = false` at every call site).  The BSON, CBOR
and UBJSON readers live in the third-party library and are not modeled
(modelled from the spec; no claim's theorem exercises those branches). -/
def parse_any (bytes : List Nat) (fmt : Fmt) : Doc :=
  match fmt with
  | .json | .jsonPatch | .jsonMergePatch => jsonParse bytes
  | .msgpack => parseMsgpack bytes
  | .binary => .bin bytes
  | .bson | .cbor | .ubjson => .discarded

/-- Raw-binary dump of a single value (the `ukv_format_field_default_k`
branch of `dump_any`, lines 160-187): nothing for null and discarded; an
error for object and array roots; verbatim bytes for strings and blobs; one
byte for a boolean and host little-endian bytes for numbers. -/
def dumpBinary : Doc → Option (List Nat)
  | .null => some []
  | .discarded => some []
  | .obj _ => none
  | .arr _ => none
  | .bin b => some b
  | .str s => some s
  | .bool b => some [if b then 1 else 0]
  | .int n => some (leBytes 8 (n.emod (2 ^ 64)).toNat)
  | .uint n => some (leBytes 8 n)
  | .float bits => some (leBytes 8 bits)

/-- Embedding of `dump_any` (lines 142-191): serialize a document in the
declared format.  `none` models a serialization error.  The BSON, CBOR and
UBJSON writers live in the third-party library and are not modeled
(modelled from the spec; no claim's theorem exercises those branches). -/
def dump_any (d : Doc) (fmt : Fmt) : Option (List Nat) :=
  match fmt with
  | .json | .jsonPatch | .jsonMergePatch => jsonDump d
  | .msgpack => some (enc d)
  | .binary => dumpBinary d
  | .bson | .cbor | .ubjson => none

/-- Tape entry written by `serializing_tape_ref_t::push_back` (lines
205-220): the dump in the requested format, with a NUL terminator appended
for the textual JSON formats. -/
def tapeEntry (d : Doc) (fmt : Fmt) : Option (List Nat) :=
  (dump_any d fmt).map (fun bs =>
    if fmt == .json || fmt == .jsonPatch || fmt == .jsonMergePatch then bs ++ [0]
    else bs)

/-! ## Field addressing -/

/-- Splitting of a pointer body on `/` separators. -/
def splitOnSlash : List Nat → List (List Nat)
  | [] => [[]]
  | 47 :: r => [] :: splitOnSlash r
  | c :: r =>
    match splitOnSlash r with
    | t :: ts => (c :: t) :: ts
    | [] => [[c]]

/-- RFC 6901 unescaping of one reference token (`~0` is `~`, `~1` is `/`); a
tilde before anything else fails as the pointer constructor does. -/
def unescapeTok : List Nat → Option (List Nat)
  | [] => some []
  | 126 :: 48 :: r => (unescapeTok r).map (126 :: ·)
  | 126 :: 49 :: r => (unescapeTok r).map (47 :: ·)
  | 126 :: _ => none
  | c :: r => (unescapeTok r).map (c :: ·)

/-- Compilation of a field string that starts with `/` into its reference
tokens. -/
def fieldTokens (f : List Nat) : Option (List (List Nat)) :=
  match f with
  | 47 :: rest => (splitOnSlash rest).mapM unescapeTok
  | _ => none

/-- Array index denoted by a reference token: digits only, with no leading
zero except for `0` itself, as the library's `array_index` parse. -/
def tokArrayIdx (t : List Nat) : Option Nat :=
  if t.isEmpty then none
  else if t.all isDigitByte then
    if 1 < t.length && t.head? == some 48 then none
    else some (digitsVal t)
  else none

/-- First value of an object member list under a key (`std::map::find`). -/
def lookupKv : List (List Nat × Doc) → List Nat → Option Doc
  | [], _ => none
  | (k, v) :: t, key => if k == key then some v else lookupKv t key

/-- Member removal (`std::map::erase`). -/
def removeKv : List (List Nat × Doc) → List Nat → List (List Nat × Doc)
  | [], _ => []
  | (k, v) :: t, key => if k == key then t else (k, v) :: removeKv t key

/-- Resolution of a token path in a document (the walk of `contains`/`at`):
object members by key, array elements by numeric token. -/
def docGet : Doc → List (List Nat) → Option Doc
  | d, [] => some d
  | .obj kvs, t :: ts =>
    match lookupKv kvs t with
    | some v => docGet v ts
    | none => none
  | .arr xs, t :: ts =>
    match tokArrayIdx t with
    | some i =>
      match xs.get? i with
      | some v => docGet v ts
      | none => none
    | none => none
  | _, _ :: _ => none

mutual

/-- Functional update of the subtree at an existing token path (the effect
of assigning through the reference `at` returns).  On a path that does not
resolve, the document is unchanged; callers only use existing paths. -/
def docSet : Doc → List (List Nat) → Doc → Doc
  | _, [], v => v
  | .obj kvs, t :: ts, v => .obj (setKv kvs t ts v)
  | .arr xs, t :: ts, v =>
    match tokArrayIdx t with
    | some i => .arr (xs.set i (docSet (xs.getD i .null) ts v))
    | none => .arr xs
  | d, _ :: _, _ => d

/-- Member update along a path, keeping positions. -/
def setKv : List (List Nat × Doc) → List Nat → List (List Nat) → Doc → List (List Nat × Doc)
  | [], _, _, _ => []
  | (k, v0) :: t, key, ts, v =>
    if k == key then (k, docSet v0 ts v) :: t else (k, v0) :: setKv t key ts v

end

/-- Result of `lookup_field` (lines 89-106): the whole document for a null
field, a borrowed reference to a found subtree, or the shared null
placeholder when the field is absent.  A pointer whose escape sequences are
invalid throws in the source; it is modeled as absent, and no claim
exercises it. -/
inductive LookupRes where
  | whole : LookupRes
  | found (path : List (List Nat)) : LookupRes
  | missing : LookupRes
deriving DecidableEq, Repr

/-- Embedding of `lookup_field`: a field starting with `/` resolves as a
JSON Pointer (`contains` then `at`); any other non-null field is a single
top-level member name resolved with `find`, which misses on non-objects. -/
def lookup_field (json : Doc) (field : Option (List Nat)) : LookupRes :=
  match field with
  | none => .whole
  | some f =>
    match f with
    | 47 :: _ =>
      match fieldTokens f with
      | some toks => if (docGet json toks).isSome then .found toks else .missing
      | none => .missing
    | _ =>
      match json with
      | .obj kvs => if (lookupKv kvs f).isSome then .found [f] else .missing
      | _ => .missing

/-! ## Patch application -/

/-- Value of an object member, or null when absent. -/
def getOr (kvs : List (List Nat × Doc)) (k : List Nat) : Doc :=
  (lookupKv kvs k).getD .null

mutual

/-- RFC 7396 JSON Merge Patch as the library's `merge_patch`: an object
patch merges member-wise into the target (a non-object target is replaced by
an empty object first), null members delete; any other patch replaces the
target. -/
def mergePatch : Doc → Doc → Doc
  | target, .obj pkvs =>
    match target with
    | .obj tkvs => .obj (mergeKvs tkvs pkvs)
    | _ => .obj (mergeKvs [] pkvs)
  | _, p => p

/-- Member-wise merge of a patch object into a member list. -/
def mergeKvs : List (List Nat × Doc) → List (List Nat × Doc) → List (List Nat × Doc)
  | base, [] => base
  | base, (k, .null) :: t => mergeKvs (removeKv base k) t
  | base, (k, pv) :: t => mergeKvs (objInsert base k (mergePatch (getOr base k) pv)) t

end

/-- Insertion semantics of JSON Patch `add`: at an object parent it inserts
or replaces the member; at an array parent the token is an index at most the
length (shifting insertion) or the past-the-end marker `-`. -/
def docAddAt : Doc → List Nat → Doc → Option Doc
  | .obj kvs, k, v => some (.obj (objInsert kvs k v))
  | .arr xs, t, v =>
    if t == [45] then some (.arr (xs ++ [v]))
    else
      match tokArrayIdx t with
      | some i => if i ≤ xs.length then some (.arr (xs.take i ++ v :: xs.drop i)) else none
      | none => none
  | _, _, _ => none

/-- Removal semantics of JSON Patch `remove` at a parent. -/
def docRemoveAt : Doc → List Nat → Option Doc
  | .obj kvs, k =>
    if (lookupKv kvs k).isSome then some (.obj (removeKv kvs k)) else none
  | .arr xs, t =>
    match tokArrayIdx t with
    | some i => if i < xs.length then some (.arr (xs.take i ++ xs.drop (i + 1))) else none
    | none => none
  | _, _ => none

/-- Path update at a parent path: applies `f` to the parent along the way. -/
def docModifyParent (d : Doc) (path : List (List Nat)) (f : Doc → Option Doc) :
    Option Doc :=
  match path with
  | [] => f d
  | _ =>
    let parentPath := path.dropLast
    match docGet d parentPath with
    | some parent => (f parent).map (fun p => docSet d parentPath p)
    | none => none

/-- Modelled from the spec: RFC 6902 JSON Patch application, the library's
`patch` member the `JsonPatch` branch of `read_modify_write` calls.  The
library applies operations in order to a copy and throws on a malformed
operation list, a failing `test`, or a missing path; a throw is `none` here
(it escapes the `safe_callback`, which catches only allocation failures).
No claim's theorem exercises this branch. -/
def applyOp (d : Doc) (op : Doc) : Option Doc :=
  match op with
  | .obj fields =>
    match lookupKv fields [111, 112] with
    | some (.str opName) =>
      let pathD := lookupKv fields [112, 97, 116, 104]
      match pathD with
      | some (.str pathStr) =>
        let toks? : Option (List (List Nat)) :=
          if pathStr.isEmpty then some [] else fieldTokens pathStr
        match toks? with
        | none => none
        | some toks =>
          if opName == [97, 100, 100] then
            match toks.getLast? with
            | none => lookupKv fields [118, 97, 108, 117, 101]
            | some lastTok =>
              match lookupKv fields [118, 97, 108, 117, 101] with
              | some v => docModifyParent d toks (fun parent => docAddAt parent lastTok v)
              | none => none
          else if opName == [114, 101, 109, 111, 118, 101] then
            match toks.getLast? with
            | none => none
            | some lastTok => docModifyParent d toks (fun parent => docRemoveAt parent lastTok)
          else if opName == [114, 101, 112, 108, 97, 99, 101] then
            match lookupKv fields [118, 97, 108, 117, 101], docGet d toks with
            | some v, some _ => some (docSet d toks v)
            | _, _ => none
          else if opName == [116, 101, 115, 116] then
            match lookupKv fields [118, 97, 108, 117, 101], docGet d toks with
            | some v, some cur => if jsonEq cur v then some d else none
            | _, _ => none
          else if opName == [109, 111, 118, 101] then
            match lookupKv fields [102, 114, 111, 109] with
            | some (.str fromStr) =>
              match (if fromStr.isEmpty then some [] else fieldTokens fromStr) with
              | none => none
              | some ftoks =>
                match docGet d ftoks, ftoks.getLast?, toks.getLast? with
                | some v, some flast, some tlast =>
                  match docModifyParent d ftoks (fun parent => docRemoveAt parent flast) with
                  | some d2 => docModifyParent d2 toks (fun parent => docAddAt parent tlast v)
                  | none => none
                | some v, some _, none => some v
                | _, _, _ => none
            | _ => none
          else if opName == [99, 111, 112, 121] then
            match lookupKv fields [102, 114, 111, 109] with
            | some (.str fromStr) =>
              match (if fromStr.isEmpty then some [] else fieldTokens fromStr) with
              | none => none
              | some ftoks =>
                match docGet d ftoks, toks.getLast? with
                | some v, some tlast =>
                  docModifyParent d toks (fun parent => docAddAt parent tlast v)
                | some v, none => some v
                | _, _ => none
            | _ => none
          else none
      | _ => none
    | _ => none
  | _ => none

/-- Application of an operation list in order. -/
def applyOps : Doc → List Doc → Option Doc
  | d, [] => some d
  | d, op :: t =>
    match applyOp d op with
    | some d2 => applyOps d2 t
    | none => none

/-- The library's `patch`: the patch document must be an array of
operations. -/
def jsonPatchApply (doc : Doc) (patch : Doc) : Option Doc :=
  match patch with
  | .arr ops => applyOps doc ops
  | _ => none

/-! ## The batch read planner -/

/-- Discarded-state test (`is_discarded`). -/
def Doc.isDiscarded : Doc → Bool
  | .discarded => true
  | _ => false

/-- One task of a batched document call: a collection handle, a key, and an
optional field selector (spec section 3: a DocumentId with a
FieldSelector). -/
structure Place where
  col : Nat
  key : Int
  field : Option (List Nat)
deriving DecidableEq, Repr

/-- The `(collection, key)` pair of a task. -/
def Place.colKey (p : Place) : Nat × Int := (p.col, p.key)

/-- The KV store as seen by one call: bytes stored under each pair. -/
def Store := (Nat × Int) → Option (List Nat)

/-- Bytes the KV engine returns for a pair: a missing entry is the empty
view (`value_view_t` over a null blob), which parses to a discarded
document. -/
def storeBytes (st : Store) (ck : Nat × Int) : List Nat := (st ck).getD []

/-- The document the planner hands a callback for a pair: the stored bytes
parsed in the internal format. -/
def parseStore (st : Store) (ck : Nat × Int) : Doc :=
  parse_any (storeBytes st ck) internalFormat

/-- Modelled from the spec (section 4.3, step 1; `all_ascending` lives in
the helpers headers outside `src/`): strict ascension of the key sequence,
a simple `<` comparison.  Note the source checks keys only, not collections;
strictly ascending keys nevertheless make the pairs unique. -/
def allAscending : List Int → Bool
  | [] => true
  | [_] => true
  | a :: b :: t => decide (a < b) && allAscending (b :: t)

/-- Lexicographic strict order on `(collection, key)` pairs (spec section
3: equality and total order are lexicographic on the pair). -/
def pairLt (a b : Nat × Int) : Bool :=
  a.1 < b.1 || (a.1 == b.1 && a.2 < b.2)

/-- Reflexive closure of `pairLt`, the sort order. -/
def pairLe (a b : Nat × Int) : Bool := pairLt a b || a == b

instance : IsTotal (Nat × Int) (fun a b => pairLe a b = true) :=
  ⟨fun a b => by
    obtain ⟨a1, a2⟩ := a
    obtain ⟨b1, b2⟩ := b
    simp only [pairLe, pairLt, Bool.or_eq_true, Bool.and_eq_true, decide_eq_true_eq,
      beq_iff_eq, Prod.mk.injEq]
    omega⟩

instance : IsTrans (Nat × Int) (fun a b => pairLe a b = true) :=
  ⟨fun a b c => by
    obtain ⟨a1, a2⟩ := a
    obtain ⟨b1, b2⟩ := b
    obtain ⟨c1, c2⟩ := c
    simp only [pairLe, pairLt, Bool.or_eq_true, Bool.and_eq_true, decide_eq_true_eq,
      beq_iff_eq, Prod.mk.injEq]
    omega⟩


/-- Removal of equal neighbors, as `std::unique` after sorting. -/
def dedupAdj : List (Nat × Int) → List (Nat × Int)
  | [] => []
  | [a] => [a]
  | a :: b :: t => if a == b then dedupAdj (b :: t) else a :: dedupAdj (b :: t)

/-- Modelled from the spec (section 4.3, step 2; `sort_and_deduplicate`
lives in the helpers headers outside `src/`): sort the pairs
lexicographically and deduplicate in place. -/
def sortDedup (l : List (Nat × Int)) : List (Nat × Int) :=
  dedupAdj (List.insertionSort (fun a b => pairLe a b = true) l)

/-- Modelled from the spec (section 4.3, step 4; `offset_in_sorted` lives in
the helpers headers outside `src/`): the binary search locating a pair in
the sorted unique list; on such a list it returns the index of the equal
element. -/
def offsetInSorted (l : List (Nat × Int)) (k : Nat × Int) : Nat := l.indexOf k

/-- Trace of one batched read: the pairs requested from the KV engine in
one `ukv_read`, the pairs whose returned bytes are parsed (one parse each,
in order), the callback invocations `(task index, field, parsed document)`
in invocation order, and the task order the planner returns for a
subsequent write (`read_order`). -/
structure ReadTrace where
  kvReads : List (Nat × Int)
  parsed : List (Nat × Int)
  calls : List (Nat × Option (List Nat) × Doc)
  writeOrder : List (Nat × Int)

/-- Embedding of `read_unique_docs` (lines 234-280): one KV read with the
caller's layout, then one parse and one callback per task, in caller
order. -/
def read_unique_docs (places : List Place) (st : Store) : ReadTrace :=
  { kvReads := places.map Place.colKey
    parsed := places.map Place.colKey
    calls := places.enum.map (fun p => (p.1, p.2.field, parseStore st p.2.colKey))
    writeOrder := places.map Place.colKey }

/-- Embedding of `read_docs` (lines 285-380): the fast path for strictly
ascending keys; otherwise sort and deduplicate the pairs, falling back to
the fast path when they were already unique; else read and parse only the
unique pairs and join each task to its parsed document by binary search. -/
def read_docs (places : List Place) (st : Store) : ReadTrace :=
  if allAscending (places.map Place.key) then read_unique_docs places st
  else
    let uniq := sortDedup (places.map Place.colKey)
    if uniq.length = places.length then read_unique_docs places st
    else
      let parsedDocs := uniq.map (parseStore st)
      { kvReads := uniq
        parsed := uniq
        calls := places.enum.map (fun p =>
          (p.1, p.2.field, parsedDocs.getD (offsetInSorted uniq p.2.colKey) .discarded))
        writeOrder := uniq }

/-! ## Write paths -/

/-- Errors of the modeled paths. -/
inductive ErrCode where
  | parseFailed : ErrCode
  | dumpFailed : ErrCode
deriving DecidableEq, Repr

/-- Outcome of a batched write call: the store afterwards, the error, and
whether the underlying `ukv_write` was issued. -/
structure WriteOut where
  store : Store
  error : Option ErrCode
  wrote : Bool

/-- Batched KV write: each task stores its bytes under its pair; within one
batch a later task on the same pair overwrites an earlier one. -/
def kv_write (tasks : List ((Nat × Int) × Option (List Nat))) (st : Store) : Store :=
  tasks.foldl (fun acc t => fun ck => if ck = t.1 then t.2 else acc ck) st

/-- The serialization loop of `replace_docs`: internal-binary tape entries
for the parsed contents, or `none` at the first content that parses to the
discarded state.  The loop runs over the tasks, each indexing its
content. -/
def replaceTape (fmt : Fmt) : List (List Nat) → Option (List (List Nat))
  | [] => some []
  | c :: ct =>
    let parsed := parse_any c fmt
    if parsed.isDiscarded then none
    else
      match replaceTape fmt ct with
      | some tape => some (enc parsed :: tape)
      | none => none

/-- Embedding of `replace_docs` (lines 382-436): parse every content in the
caller's format and push its internal-binary dump onto the tape; the first
parse failure aborts the whole batch with a parse error before any KV
write; otherwise one batched KV write stores the tape under the caller's
pairs. -/
def replace_docs (places : List Place) (contents : List (List Nat)) (fmt : Fmt)
    (st : Store) : WriteOut :=
  match replaceTape fmt contents with
  | none => { store := st, error := some .parseFailed, wrote := false }
  | some tape =>
    { store := kv_write ((places.map Place.colKey).zip (tape.map some)) st
      error := none
      wrote := true }

/-- One step of `read_modify_write`'s callback (lines 449-478): look the
field up in the loaded document, patch through the obtained reference, and
report the updated document together with the document whose dump goes onto
the tape.  The guard at line 457 compares the address of the whole document
with the local placeholder (`&parsed != &null_object`), which always holds,
so the patch is always applied through the lookup result — also when the
field was absent and the result is the detached placeholder — and the
root-insertion branch at lines 464-469 is dead.  `none` models a patch
exception escaping the callback. -/
def rmwStep (parsed : Doc) (field : Option (List Nat)) (task : Doc) (fmt : Fmt) :
    Option (Doc × Doc) :=
  let apply1 : Doc → Option Doc := fun part =>
    match fmt with
    | .jsonPatch => jsonPatchApply part task
    | .jsonMergePatch => some (mergePatch part task)
    | _ => some task
  match lookup_field parsed field with
  | .whole => (apply1 parsed).map (fun p => (p, p))
  | .found path =>
    (apply1 ((docGet parsed path).getD .null)).map
      (fun sub => (docSet parsed path sub, sub))
  | .missing => (apply1 .null).map (fun sub => (parsed, sub))

/-- The callback loop of `read_modify_write` over the fast read path: each
task owns its freshly parsed document; the tape collects the dumps of the
patched references in task order. -/
def rmwFastLoop (contents : List (List Nat)) (fmt : Fmt) (st : Store) :
    List (Nat × Place) → Option (List (List Nat))
  | [] => some []
  | (i, p) :: t =>
    let task := parse_any (contents.getD i []) fmt
    match rmwStep (parseStore st p.colKey) p.field task fmt with
    | none => none
    | some pr =>
      match rmwFastLoop contents fmt st t with
      | some tape => some (enc pr.2 :: tape)
      | none => none

/-- The callback loop of `read_modify_write` over the general read path:
duplicate tasks share one parsed document, so an earlier task's patch is
visible to a later duplicate; the parsed documents are index-aligned with
the unique pair list. -/
def rmwJoinLoop (contents : List (List Nat)) (fmt : Fmt) (uniq : List (Nat × Int)) :
    List (Nat × Place) → List Doc → Option (List Doc × List (List Nat))
  | [], docs => some (docs, [])
  | (i, p) :: t, docs =>
    let idx := offsetInSorted uniq p.colKey
    let parsed := docs.getD idx .discarded
    let task := parse_any (contents.getD i []) fmt
    match rmwStep parsed p.field task fmt with
    | none => none
    | some pr =>
      match rmwJoinLoop contents fmt uniq t (docs.set idx pr.1) with
      | some r => some (r.1, enc pr.2 :: r.2)
      | none => none

/-- Embedding of `read_modify_write` (lines 438-513): run the batch read
planner with the patching callback, then issue one KV write whose task
count is the planner's returned (possibly deduplicated) order while the
values come from the tape of per-task entries — the write pairs the first
`writeOrder.length` tape entries with the planner's order.  `none` models an
exception escaping the callback. -/
def read_modify_write (places : List Place) (contents : List (List Nat)) (fmt : Fmt)
    (st : Store) : Option WriteOut :=
  let write : List (Nat × Int) → List (List Nat) → WriteOut := fun order tape =>
    { store := kv_write (order.zip ((tape.take order.length).map some)) st
      error := none
      wrote := true }
  if allAscending (places.map Place.key) then
    (rmwFastLoop contents fmt st places.enum).map (fun tape =>
      write (places.map Place.colKey) tape)
  else
    let uniq := sortDedup (places.map Place.colKey)
    if uniq.length = places.length then
      (rmwFastLoop contents fmt st places.enum).map (fun tape =>
        write (places.map Place.colKey) tape)
    else
      (rmwJoinLoop contents fmt uniq places.enum (uniq.map (parseStore st))).map
        (fun r => write uniq r.2)

/-! ## The batched document API (deprecated modality file) -/

/-- The fields argument of a batched call: a null pointer, a single
repeated selector (stride zero), or one selector per task. -/
inductive FieldsArg where
  | absent : FieldsArg
  | repeated (f : Option (List Nat)) : FieldsArg
  | perTask (fs : List (Option (List Nat))) : FieldsArg
deriving DecidableEq, Repr

/-- The `has_fields` test (line 556 and 610): a non-null fields pointer
that is either non-repeating or repeats a non-null selector. -/
def hasFields : FieldsArg → Bool
  | .absent => false
  | .repeated f => f.isSome
  | .perTask _ => true

/-- The selector of task `i`. -/
def fieldAt : FieldsArg → Nat → Option (List Nat)
  | .absent, _ => none
  | .repeated f, _ => f
  | .perTask fs, i => fs.getD i none

/-- Arguments of `ukv_docs_write`. -/
structure DocsWriteArgs where
  pairs : List (Nat × Int)
  fields : FieldsArg
  format : Fmt
  contents : List (List Nat)

/-- The task list of a call. -/
def DocsWriteArgs.places (a : DocsWriteArgs) : List Place :=
  a.pairs.enum.map (fun p => { col := p.2.1, key := p.2.2, field := fieldAt a.fields p.1 })

/-- Embedding of `ukv_docs_write` (lines 546-598): with no field selectors
and the internal format the call forwards verbatim to the KV write with the
caller's arguments; otherwise it dispatches to `read_modify_write` when
fields are present or the format is a patch format, else to
`replace_docs`. -/
def ukv_docs_write (a : DocsWriteArgs) (st : Store) : Option WriteOut :=
  if ¬hasFields a.fields ∧ a.format = internalFormat then
    some { store := kv_write (a.pairs.zip (a.contents.map some)) st
           error := none
           wrote := true }
  else if hasFields a.fields ∨ a.format = .jsonPatch ∨ a.format = .jsonMergePatch then
    read_modify_write a.places a.contents a.format st
  else
    some (replace_docs a.places a.contents a.format st)

/-- Arguments of `ukv_docs_read`. -/
structure DocsReadArgs where
  pairs : List (Nat × Int)
  fields : FieldsArg
  format : Fmt

/-- The task list of a read call. -/
def DocsReadArgs.places (a : DocsReadArgs) : List Place :=
  a.pairs.enum.map (fun p => { col := p.2.1, key := p.2.2, field := fieldAt a.fields p.1 })

/-- Outcome of a batched read: one tape entry per task (in the passthrough
case the raw stored bytes, `none` for a missing entry or a failed dump) and
the number of document parses performed. -/
structure ReadOut where
  entries : List (Option (List Nat))
  parses : Nat

/-- The document pushed for one read task: the looked-up part, or the null
placeholder when the field is absent (`safe_callback`, lines 644-653). -/
def readPart (parsed : Doc) (field : Option (List Nat)) : Doc :=
  match lookup_field parsed field with
  | .whole => parsed
  | .found path => (docGet parsed path).getD .null
  | .missing => .null

/-- Embedding of `ukv_docs_read` (lines 600-663): with no field selectors
and the internal format the call forwards verbatim to the KV read;
otherwise it runs the batch read planner and pushes, for every task in
caller order, the dump of the looked-up part in the caller's format. -/
def ukv_docs_read (a : DocsReadArgs) (st : Store) : ReadOut :=
  if ¬hasFields a.fields ∧ a.format = internalFormat then
    { entries := a.pairs.map st, parses := 0 }
  else
    let tr := read_docs a.places st
    { entries := tr.calls.map (fun c => tapeEntry (readPart c.2.2 c.2.1) a.format)
      parses := tr.parsed.length }

/-! ## The older `logic_docs.cpp` write path -/

/-- Embedding of `update_fields` of `logic_docs.cpp` (lines 186-212): the
function allocates `n` default documents and two scratch vectors, checks
the first default document for the discarded state (a default document is
null, never discarded), and returns; no KV read or write is issued and no
error is set.  Reading `parsed[0]` of an empty vector is out of bounds in
the source, so the model is only meaningful for `n ≥ 1`, which the claims
assume. -/
def logic_update_fields (n : Nat) (st : Store) : WriteOut :=
  let parsed := List.replicate n Doc.null
  match parsed.head? with
  | some d =>
    if d.isDiscarded then { store := st, error := some .parseFailed, wrote := false }
    else { store := st, error := none, wrote := false }
  | none => { store := st, error := none, wrote := false }

/-- Embedding of `update_docs` of `logic_docs.cpp` (lines 127-184): parse
each content in the caller's format, fail the batch on a discarded parse,
serialize to the internal format, and write the batch. -/
def logic_update_docs (pairs : List (Nat × Int)) (contents : List (List Nat))
    (fmt : Fmt) (st : Store) : WriteOut :=
  match replaceTape fmt contents with
  | none => { store := st, error := some .parseFailed, wrote := false }
  | some tape =>
    { store := kv_write (pairs.zip (tape.map some)) st, error := none, wrote := true }

/-- Embedding of `ukv_docs_write` of `logic_docs.cpp` (lines 214-285): with
a null fields pointer and the internal format the call forwards verbatim to
the KV write; otherwise a non-null fields pointer dispatches to
`update_fields` and a null one to `update_docs`. -/
def logic_ukv_docs_write (pairs : List (Nat × Int))
    (fields : Option (List (Option (List Nat)))) (fmt : Fmt)
    (contents : List (List Nat)) (st : Store) : WriteOut :=
  if fields.isNone ∧ fmt = internalFormat then
    { store := kv_write (pairs.zip (contents.map some)) st, error := none, wrote := true }
  else
    match fields with
    | some _ => logic_update_fields pairs.length st
    | none => logic_update_docs pairs contents fmt st

/-! ## Columnar gather

Embedding of `export_scalar_column` (lines 830-922) and
`export_string_column` (lines 944-1035) of the deprecated modality file.
Each cell export becomes the ordered list of updates the function performs
on the cell: its three bitmap bits and its payload.  The C++ function is a
template over the target scalar type; the embedding is likewise
parameterized, by a descriptor carrying the target's kind, width, the
payload bytes each source case stores, and its `from_chars` parser.
Concrete descriptors below instantiate it for `bool`, the integer widths
and the floating-point targets. -/

/-- Target scalar kinds of `export_scalar_column`'s template parameter. -/
inductive TKind where
  | bool : TKind
  | sint : TKind
  | uint : TKind
  | float : TKind
deriving DecidableEq, Repr

/-- Result of the `from_chars` wrapper (lines 785-809): position of the
returned pointer as a consumed-byte count, the success flag (`ec ==
errc()`), and the payload bytes written through the output reference, when
written. -/
structure FCResult where
  consumed : Nat
  ok : Bool
  written : Option (List Nat)
deriving DecidableEq, Repr

/-- A scalar target type. -/
structure ScalarDesc where
  kind : TKind
  width : Nat
  ofBool : Bool → List Nat
  ofInt : Int → List Nat
  ofUint : Nat → List Nat
  ofFloat : Nat → List Nat
  fromChars : List Nat → FCResult

/-- One update of a scalar gather cell, in program order. -/
inductive CellUpd where
  | convt (b : Bool) : CellUpd
  | collide (b : Bool) : CellUpd
  | valid (b : Bool) : CellUpd
  | payload (bs : List Nat) : CellUpd
deriving DecidableEq, Repr

/-- Embedding of `export_scalar_column` as the ordered update sequence it
performs on the cell `(value, target)`.  Note the order within each case is
the source's statement order: in particular the binary case sets the
validity bit before the payload copy, and the string case writes the
payload during the parse, before the bits. -/
def export_scalar_column (t : ScalarDesc) (value : Doc) : List CellUpd :=
  match value with
  | .null => [.convt false, .collide false, .valid false]
  | .discarded => [.convt false, .collide true, .valid false]
  | .obj _ => [.convt false, .collide true, .valid false]
  | .arr _ => [.convt false, .collide true, .valid false]
  | .bin b =>
    if b.length = t.width then
      [.convt true, .collide false, .valid true, .payload b]
    else [.convt false, .collide true, .valid false]
  | .str s =>
    let r := t.fromChars s
    (match r.written with
      | some bs => [CellUpd.payload bs]
      | none => []) ++
    (if r.ok && r.consumed == s.length then
      [.convt true, .collide false, .valid true]
    else [.convt false, .collide true, .valid false])
  | .bool b =>
    [.payload (t.ofBool b), .convt (t.kind != .bool), .collide false, .valid true]
  | .int n =>
    [.payload (t.ofInt n), .convt (t.kind != .sint), .collide false, .valid true]
  | .uint n =>
    [.payload (t.ofUint n), .convt (t.kind != .uint), .collide false, .valid true]
  | .float bits =>
    [.payload (t.ofFloat bits), .convt (t.kind != .float), .collide false, .valid true]

/-- State of a scalar gather cell: the three bitmap bits of the cell and
the scalar column slot (`none` models never-written scratch memory). -/
structure CellState where
  valid : Bool
  convt : Bool
  collide : Bool
  payload : Option (List Nat)
deriving DecidableEq, Repr

/-- Application of one update. -/
def applyUpd (s : CellState) : CellUpd → CellState
  | .convt b => { s with convt := b }
  | .collide b => { s with collide := b }
  | .valid b => { s with valid := b }
  | .payload bs => { s with payload := some bs }

/-- Final state of a cell after an update sequence. -/
def runUpds (init : CellState) (us : List CellUpd) : CellState :=
  us.foldl applyUpd init

/-- The coerced payload `export_scalar_column` stores in the cases it marks
the cell valid. -/
def scalarCoerce (t : ScalarDesc) : Doc → Option (List Nat)
  | .bin b => if b.length = t.width then some b else none
  | .str s =>
    let r := t.fromChars s
    if r.ok && r.consumed == s.length then r.written else none
  | .bool b => some (t.ofBool b)
  | .int n => some (t.ofInt n)
  | .uint n => some (t.ofUint n)
  | .float bits => some (t.ofFloat bits)
  | _ => none

/-- Validity update test. -/
def CellUpd.isValid : CellUpd → Bool
  | .valid _ => true
  | _ => false

/-- Conversion or collision bitmap update test. -/
def CellUpd.isOtherBit : CellUpd → Bool
  | .convt _ => true
  | .collide _ => true
  | _ => false

/-- Bit-update ordering of a cell trace: exactly one validity update, after
every conversion and collision update (payload writes are not
constrained). -/
def bitsOrdered : List CellUpd → Bool
  | [] => false
  | u :: t =>
    if u.isValid then t.all (fun v => !(v.isValid || v.isOtherBit))
    else bitsOrdered t

/-! ### String and binary columns -/

/-- One update of a string-column gather cell, in program order: the offset
and length slots (`none` is `ukv_length_missing_k`), bytes appended to the
shared tape, and the three bitmap bits. -/
inductive StrUpd where
  | off (n : Option Nat) : StrUpd
  | len (n : Option Nat) : StrUpd
  | append (bs : List Nat) : StrUpd
  | convt (b : Bool) : StrUpd
  | collide (b : Bool) : StrUpd
  | valid (b : Bool) : StrUpd
deriving DecidableEq, Repr

/-- The `%f` text of a double (`std::snprintf` with the `%f` format): fixed
six-digit fraction, rounded to nearest; non-finite values print `nan`,
`inf` or `-inf`. -/
def snprintfF (bits : Nat) : List Nat :=
  match doubleClass bits with
  | .nan => [110, 97, 110]
  | .inf neg => if neg then [45, 105, 110, 102] else [105, 110, 102]
  | .fin q =>
    let neg : Bool := 2 ^ 63 ≤ bits
    let a : Rat := if q < 0 then -q else q
    let m := rne (a * 1000000)
    let ipart := natDecimal (m / 1000000)
    let fdigits := natDecimal (m % 1000000)
    let frac := List.replicate (6 - fdigits.length) 48 ++ fdigits
    (if neg then [45] else []) ++ ipart ++ 46 :: frac

/-- Embedding of `print_scalar` (lines 924-942) for an integer value: the
`to_chars` digits always fit the 32-byte buffer, a NUL terminator is
appended, and the returned length counts it. -/
def print_scalar_int (n : Int) : Option (List Nat) :=
  some (intDecimal n ++ [0])

/-- Embedding of `print_scalar` for an unsigned value. -/
def print_scalar_uint (n : Nat) : Option (List Nat) :=
  some (natDecimal n ++ [0])

/-- Embedding of `print_scalar` for a double: the `to_chars` wrapper
(lines 811-828) prints with `%f` and returns a pointer one byte short, so
the fit check is against the printed length and the stored text loses its
final character to the NUL terminator; a text that does not fit the buffer
reports the missing length. -/
def print_scalar_float (bits : Nat) : Option (List Nat) :=
  let s := snprintfF bits
  if s.length < 32 then some (s.take (s.length - 1) ++ [0]) else none

/-- Embedding of `export_string_column` as the ordered update sequence on
the cell: the offset slot is set to the tape position first, each case then
writes length, bytes and bits in the source's statement order (for null and
collision cases the offset and length slots are re-set to missing after the
bits). -/
def export_string_column (value : Doc) (outPos : Nat) : List StrUpd :=
  StrUpd.off (some outPos) ::
    match value with
    | .null =>
      [.convt false, .collide false, .valid false, .len none, .off none]
    | .discarded => [.convt false, .collide true, .valid false, .len none, .off none]
    | .obj _ => [.convt false, .collide true, .valid false, .len none, .off none]
    | .arr _ => [.convt false, .collide true, .valid false, .len none, .off none]
    | .bin b =>
      [.len (some b.length), .append b, .convt false, .collide false, .valid true]
    | .str s =>
      [.len (some s.length), .append (s ++ [0]), .convt false, .collide false,
        .valid true]
    | .bool b =>
      if b then
        [.len (some 5), .append [116, 114, 117, 101, 0], .convt true,
          .collide false, .valid true]
      else
        [.len (some 6), .append [102, 97, 108, 115, 101, 0], .convt true,
          .collide false, .valid true]
    | .int n =>
      (match print_scalar_int n with
        | some bs => [StrUpd.append bs, StrUpd.len (some bs.length)]
        | none => [StrUpd.len none]) ++
      [.convt true, .collide false, .valid true]
    | .uint n =>
      (match print_scalar_uint n with
        | some bs => [StrUpd.append bs, StrUpd.len (some bs.length)]
        | none => [StrUpd.len none]) ++
      [.convt true, .collide false, .valid true]
    | .float bits =>
      (match print_scalar_float bits with
        | some bs => [StrUpd.append bs, StrUpd.len (some bs.length)]
        | none => [StrUpd.len none]) ++
      match print_scalar_float bits with
      | some _ => [.convt true, .collide false, .valid true]
      | none => [.convt true, .collide true, .valid false]

/-- State of a string-column cell. -/
structure StrState where
  valid : Bool
  convt : Bool
  collide : Bool
  off : Option (Option Nat)
  len : Option (Option Nat)
  appended : List Nat
deriving DecidableEq, Repr

/-- Application of one string-column update. -/
def applyStrUpd (s : StrState) : StrUpd → StrState
  | .off n => { s with off := some n }
  | .len n => { s with len := some n }
  | .append bs => { s with appended := s.appended ++ bs }
  | .convt b => { s with convt := b }
  | .collide b => { s with collide := b }
  | .valid b => { s with valid := b }

/-- Final state of a string-column cell after an update sequence. -/
def runStrUpds (init : StrState) (us : List StrUpd) : StrState :=
  us.foldl applyStrUpd init

/-- The length and appended bytes `export_string_column` stores in the
cases it marks the cell valid. -/
def stringCoerce : Doc → Option (Nat × List Nat)
  | .bin b => some (b.length, b)
  | .str s => some (s.length, s ++ [0])
  | .bool b =>
    if b then some (5, [116, 114, 117, 101, 0]) else some (6, [102, 97, 108, 115, 101, 0])
  | .int n => (print_scalar_int n).map (fun bs => (bs.length, bs))
  | .uint n => (print_scalar_uint n).map (fun bs => (bs.length, bs))
  | .float bits => (print_scalar_float bits).map (fun bs => (bs.length, bs))
  | _ => none

/-- Validity update test for string-column updates. -/
def StrUpd.isValid : StrUpd → Bool
  | .valid _ => true
  | _ => false

/-- Conversion or collision update test for string-column updates. -/
def StrUpd.isOtherBit : StrUpd → Bool
  | .convt _ => true
  | .collide _ => true
  | _ => false

/-- Bit-update ordering of a string-column trace. -/
def strBitsOrdered : List StrUpd → Bool
  | [] => false
  | u :: t =>
    if u.isValid then t.all (fun v => !(v.isValid || v.isOtherBit))
    else strBitsOrdered t

/-! ### Concrete scalar targets -/

/-- Truncating cast of a double to a `width`-byte integer
(`static_cast<scalar_at>` of a double; an out-of-range value is undefined
behavior in C++ and is modeled as a two's-complement wrap of the truncated
value, a non-finite one as zero). -/
def castF64ToInt (width : Nat) (bits : Nat) : Nat :=
  match doubleClass bits with
  | .fin q =>
    let t : Int := if q < 0 then -((-q).floor) else q.floor
    (t.emod (2 ^ (8 * width))).toNat
  | _ => 0

/-- Cast of a double to `bool` (`value != 0.0`; NaN and infinities are
truthy). -/
def boolOfF64 (bits : Nat) : Nat :=
  match doubleClass bits with
  | .fin q => if q = 0 then 0 else 1
  | _ => 1

/-- Embedding of the `from_chars` wrapper's integer branch
(`std::from_chars`): an optional minus sign for signed targets, then the
longest run of decimal digits; no digit means no conversion (the pointer
stays at the begin); an out-of-range value consumes its digits but reports
`result_out_of_range` and writes nothing. -/
def intFromChars (signed : Bool) (width : Nat) (s : List Nat) : FCResult :=
  let sg : Bool × Nat × List Nat :=
    match s with
    | 45 :: r => if signed then (true, 1, r) else (false, 0, s)
    | _ => (false, 0, s)
  let p := splitDigits sg.2.2
  if p.1.isEmpty then { consumed := 0, ok := false, written := none }
  else
    let v : Int := if sg.1 then -(digitsVal p.1 : Int) else (digitsVal p.1 : Int)
    let consumed := sg.2.1 + p.1.length
    let lo : Int := if signed then -(2 ^ (8 * width - 1)) else 0
    let hi : Int := if signed then 2 ^ (8 * width - 1) - 1 else 2 ^ (8 * width) - 1
    if lo ≤ v ∧ v ≤ hi then
      { consumed := consumed, ok := true
        written := some (leBytes width (v.emod (2 ^ (8 * width))).toNat) }
    else { consumed := consumed, ok := false, written := none }

/-- Embedding of the `from_chars` wrapper's `bool` branch (lines 797-806):
success only on exactly the literal `true` or `false`; the returned pointer
is the end of the string either way. -/
def boolFromChars (s : List Nat) : FCResult :=
  if s == [116, 114, 117, 101] then
    { consumed := s.length, ok := true, written := some [1] }
  else if s == [102, 97, 108, 115, 101] then
    { consumed := s.length, ok := true, written := some [0] }
  else { consumed := s.length, ok := false, written := none }

/-- Embedding of the `from_chars` wrapper's floating-point branches
(`strtof`/`strtod`): the scan consumes the longest valid floating-point
form, failure is a consumed count of zero, and the value (zero on failure)
is always written. -/
def floatFromChars (width : Nat) (toBits : FClass → Nat) (s : List Nat) : FCResult :=
  let p := strtodScan s
  { consumed := p.1, ok := p.1 != 0, written := some (leBytes width (toBits p.2)) }

/-- The integer target of a given signedness and byte width. -/
def intDesc (signed : Bool) (width : Nat) : ScalarDesc :=
  { kind := if signed then .sint else .uint
    width := width
    ofBool := fun b => leBytes width (if b then 1 else 0)
    ofInt := fun n => leBytes width (n.emod (2 ^ (8 * width))).toNat
    ofUint := fun n => leBytes width (n % 2 ^ (8 * width))
    ofFloat := fun bits => leBytes width (castF64ToInt width bits)
    fromChars := intFromChars signed width }

/-- The `bool` target. -/
def boolDesc : ScalarDesc :=
  { kind := .bool
    width := 1
    ofBool := fun b => [if b then 1 else 0]
    ofInt := fun n => [if n == 0 then 0 else 1]
    ofUint := fun n => [if n == 0 then 0 else 1]
    ofFloat := fun bits => [boolOfF64 bits]
    fromChars := boolFromChars }

/-- The `double` target. -/
def floatDesc64 : ScalarDesc :=
  { kind := .float
    width := 8
    ofBool := fun b => leBytes 8 (classToF64Bits (.fin (if b then 1 else 0)))
    ofInt := fun n => leBytes 8 (classToF64Bits (.fin (n : Rat)))
    ofUint := fun n => leBytes 8 (classToF64Bits (.fin (n : Rat)))
    ofFloat := fun bits => leBytes 8 bits
    fromChars := floatFromChars 8 classToF64Bits }

/-- The `float` target. -/
def floatDesc32 : ScalarDesc :=
  { kind := .float
    width := 4
    ofBool := fun b => leBytes 4 (classToF32Bits (.fin (if b then 1 else 0)))
    ofInt := fun n => leBytes 4 (classToF32Bits (.fin (n : Rat)))
    ofUint := fun n => leBytes 4 (classToF32Bits (.fin (n : Rat)))
    ofFloat := fun bits => leBytes 4 (classToF32Bits (doubleClass bits))
    fromChars := floatFromChars 4 classToF32Bits }

/-- The scalar targets `ukv_docs_gather` dispatches to
`export_scalar_column` (lines 1210-1223). -/
def scalarDescs : List ScalarDesc :=
  [boolDesc,
    intDesc true 1, intDesc true 2, intDesc true 4, intDesc true 8,
    intDesc false 1, intDesc false 2, intDesc false 4, intDesc false 8,
    floatDesc32, floatDesc64]

/-- Well-behavedness of a descriptor's parser: a successful parse has
written a value (all concrete targets write on success). -/
def DescWrites (t : ScalarDesc) : Prop :=
  ∀ s, (t.fromChars s).ok = true → (t.fromChars s).written ≠ none

/-! ## Concrete instances for the analyses -/

/-- A stored document with a nested member: `{"a": {"b": 1}}`. -/
def c1Doc : Doc := Doc.obj [([97], Doc.obj [([98], Doc.uint 1)])]

/-- A store holding `c1Doc` in its internal dump under `(0, 42)`. -/
def c1Store : Store :=
  fun ck => if ck = (0, 42) then some (enc c1Doc) else none

/-- The all-clear initial state of a scalar gather cell. -/
def cell0 : CellState :=
  { valid := false, convt := false, collide := false, payload := none }

/-- The all-clear initial state of a string-column gather cell. -/
def strCell0 : StrState :=
  { valid := false, convt := false, collide := false, off := none, len := none,
    appended := [] }

/-! ## Lemmas about the byte encodings -/

theorem beBytes_length (k n : Nat) : (beBytes k n).length = k := by
  induction k generalizing n with
  | zero => rfl
  | succ k ih => simp [beBytes, ih]

theorem beVal_append_singleton (xs : List Nat) (b : Nat) :
    beVal (xs ++ [b]) = beVal xs * 256 + b := by
  simp [beVal, List.foldl_append]

theorem beVal_beBytes (k n : Nat) : beVal (beBytes k n) = n % 256 ^ k := by
  induction k generalizing n with
  | zero => simp [beBytes, beVal, Nat.mod_one]
  | succ k ih =>
    rw [beBytes, beVal_append_singleton, ih]
    have h : n % 256 ^ (k + 1) = n % (256 * 256 ^ k) := by ring_nf
    rw [h, Nat.mod_mul]
    omega

theorem beVal_beBytes_of_lt {k n : Nat} (h : n < 256 ^ k) :
    beVal (beBytes k n) = n := by
  rw [beVal_beBytes, Nat.mod_eq_of_lt h]

theorem readN_append {n : Nat} {xs : List Nat} (rest : List Nat)
    (h : xs.length = n) : readN n (xs ++ rest) = some (xs, rest) := by
  subst h
  simp [readN, List.take_left, List.drop_left]

theorem readBE_beBytes (k n : Nat) (rest : List Nat) :
    readBE k (beBytes k n ++ rest) = some (n % 256 ^ k, rest) := by
  rw [readBE, readN_append rest (beBytes_length k n)]
  simp [beVal_beBytes]

theorem readBE_beBytes_of_lt {k n : Nat} (rest : List Nat) (h : n < 256 ^ k) :
    readBE k (beBytes k n ++ rest) = some (n, rest) := by
  rw [readBE_beBytes, Nat.mod_eq_of_lt h]

/-! ## Round-trip lemmas for the MessagePack codec -/

theorem keyLt_irrefl (a : List Nat) : keyLt a a = false := by
  induction a with
  | nil => rfl
  | cons x xs ih => simp [keyLt, ih]

theorem keyLt_asymm {a b : List Nat} (h : keyLt a b = true) : keyLt b a = false := by
  induction a generalizing b with
  | nil => cases b with
    | nil => simp [keyLt] at h
    | cons y ys => simp [keyLt]
  | cons x xs ih =>
    cases b with
    | nil => simp [keyLt] at h
    | cons y ys =>
      rw [Bool.eq_false_iff]
      intro hc
      simp only [keyLt, Bool.or_eq_true, Bool.and_eq_true, beq_iff_eq,
        decide_eq_true_eq] at h hc
      rcases h with h | ⟨rfl, h⟩
      · rcases hc with hc | ⟨e, _⟩ <;> omega
      · rcases hc with hc | ⟨_, hc⟩
        · omega
        · rw [ih h] at hc
          cases hc

theorem keyLt_ne {a b : List Nat} (h : keyLt a b = true) : a ≠ b := by
  rintro rfl
  rw [keyLt_irrefl] at h
  cases h

theorem keyLt_trans {a b c : List Nat} (h1 : keyLt a b = true)
    (h2 : keyLt b c = true) : keyLt a c = true := by
  induction a generalizing b c with
  | nil =>
    cases c with
    | nil =>
      cases b with
      | nil => simp [keyLt] at h1
      | cons y ys => simp [keyLt] at h2
    | cons z zs => simp [keyLt]
  | cons x xs ih =>
    cases b with
    | nil => simp [keyLt] at h1
    | cons y ys =>
      cases c with
      | nil => simp [keyLt] at h2
      | cons z zs =>
        simp only [keyLt, Bool.or_eq_true, Bool.and_eq_true, beq_iff_eq,
          decide_eq_true_eq] at h1 h2 ⊢
        rcases h1 with h1 | ⟨rfl, h1⟩
        · rcases h2 with h2 | ⟨rfl, h2⟩
          · exact Or.inl (by omega)
          · exact Or.inl h1
        · rcases h2 with h2 | ⟨rfl, h2⟩
          · exact Or.inl h2
          · exact Or.inr ⟨rfl, ih h1 h2⟩

theorem keysSorted_cons {a : List Nat} {l : List (List Nat)}
    (h : keysSorted (a :: l) = true) :
    keysSorted l = true ∧ ∀ b ∈ l, keyLt a b = true := by
  induction l generalizing a with
  | nil => exact ⟨rfl, by simp⟩
  | cons b t ih =>
    rw [keysSorted, Bool.and_eq_true] at h
    obtain ⟨hab, hrest⟩ := h
    obtain ⟨_, hall⟩ := ih hrest
    refine ⟨hrest, ?_⟩
    intro c hc
    rcases List.mem_cons.mp hc with rfl | hc
    · exact hab
    · exact keyLt_trans hab (hall c hc)

theorem objInsert_append {acc : List (List Nat × Doc)} {k : List Nat} (v : Doc)
    (h : ∀ p ∈ acc, keyLt p.1 k = true) :
    objInsert acc k v = acc ++ [(k, v)] := by
  induction acc with
  | nil => rfl
  | cons p t ih =>
    obtain ⟨k0, v0⟩ := p
    have hk0 : keyLt k0 k = true := h (k0, v0) (List.mem_cons_self _ _)
    rw [objInsert]
    rw [if_neg (by simp [keyLt_asymm hk0])]
    rw [if_neg (by simpa using (keyLt_ne hk0).symm)]
    rw [ih (fun p hp => h p (List.mem_cons_of_mem _ hp))]
    rfl

theorem readBE_one (b : Nat) (rest : List Nat) : readBE 1 (b :: rest) = some (b, rest) := by
  rw [readBE, show b :: rest = [b] ++ rest from rfl, @readN_append 1 [b] rest rfl]
  simp [beVal]

theorem deStr_enc {k : List Nat} (rest : List Nat) (h : k.length < 2 ^ 32) :
    deStr (encStrHeader k.length ++ (k ++ rest)) = some (k, rest) := by
  rw [encStrHeader]
  by_cases h1 : k.length < 32
  · rw [if_pos h1]
    show deStr ((0xA0 + k.length) :: (k ++ rest)) = _
    rw [deStr]
    rw [if_pos (by omega)]
    have he : 0xA0 + k.length - 0xA0 = k.length := by omega
    rw [he, readN_append rest rfl]
  · rw [if_neg h1]
    by_cases h2 : k.length < 2 ^ 8
    · rw [if_pos h2]
      show deStr (0xD9 :: k.length :: (k ++ rest)) = _
      rw [deStr]
      rw [if_neg (by omega), if_pos rfl, readBE_one]
      simp [readN_append rest rfl]
    · rw [if_neg h2]
      by_cases h3 : k.length < 2 ^ 16
      · rw [if_pos h3]
        show deStr (0xDA :: (beBytes 2 k.length ++ (k ++ rest))) = _
        rw [deStr]
        rw [if_neg (by omega), if_neg (by omega), if_pos rfl,
          readBE_beBytes_of_lt _ (by norm_num at h3 ⊢; omega)]
        simp [readN_append rest rfl]
      · rw [if_neg h3]
        show deStr (0xDB :: (beBytes 4 k.length ++ (k ++ rest))) = _
        rw [deStr]
        rw [if_neg (by omega), if_neg (by omega), if_neg (by omega), if_pos rfl,
          readBE_beBytes_of_lt _ (by norm_num at h ⊢; omega)]
        simp [readN_append rest rfl]

theorem deVal_encUint (fuel : Nat) {n : Nat} (rest : List Nat) (h : n < 2 ^ 64) :
    deVal (fuel + 1) (encUint n ++ rest) = some (.uint n, rest) := by
  rw [encUint]
  by_cases h1 : n < 128
  · rw [if_pos h1]
    show deVal (fuel + 1) (n :: rest) = _
    rw [deVal]
    rw [if_pos (by omega)]
  · rw [if_neg h1]
    by_cases h2 : n < 2 ^ 8
    · rw [if_pos h2]
      show deVal (fuel + 1) (0xCC :: (n :: rest)) = _
      simp [deVal, readBE_one]
    · rw [if_neg h2]
      by_cases h3 : n < 2 ^ 16
      · rw [if_pos h3]
        show deVal (fuel + 1) (0xCD :: (beBytes 2 n ++ rest)) = _
        simp [deVal, readBE_beBytes_of_lt rest (show n < 256 ^ 2 by norm_num at h3 ⊢; omega)]
      · rw [if_neg h3]
        by_cases h4 : n < 2 ^ 32
        · rw [if_pos h4]
          show deVal (fuel + 1) (0xCE :: (beBytes 4 n ++ rest)) = _
          simp [deVal, readBE_beBytes_of_lt rest (show n < 256 ^ 4 by norm_num at h4 ⊢; omega)]
        · rw [if_neg h4]
          show deVal (fuel + 1) (0xCF :: (beBytes 8 n ++ rest)) = _
          simp [deVal, readBE_beBytes_of_lt rest (show n < 256 ^ 8 by norm_num at h ⊢; omega)]

theorem deVal_fixneg (fuel : Nat) {b : Nat} (rest : List Nat) (h1 : 0xE0 ≤ b) :
    deVal (fuel + 1) (b :: rest) = some (.int ((b : Int) - 256), rest) := by
  rw [deVal]
  iterate 27 rw [if_neg (by omega)]
  rw [if_pos h1]

theorem deVal_tagD0 (fuel v : Nat) (rest : List Nat) :
    deVal (fuel + 1) (0xD0 :: (v :: rest)) = some (.int (twosComp 8 v), rest) := by
  simp [deVal, readBE_one]

theorem deVal_tagD1 (fuel v : Nat) (rest : List Nat) (h : v < 256 ^ 2) :
    deVal (fuel + 1) (0xD1 :: (beBytes 2 v ++ rest)) =
      some (.int (twosComp 16 v), rest) := by
  simp [deVal, readBE_beBytes_of_lt rest h]

theorem deVal_tagD2 (fuel v : Nat) (rest : List Nat) (h : v < 256 ^ 4) :
    deVal (fuel + 1) (0xD2 :: (beBytes 4 v ++ rest)) =
      some (.int (twosComp 32 v), rest) := by
  simp [deVal, readBE_beBytes_of_lt rest h]

theorem deVal_tagD3 (fuel v : Nat) (rest : List Nat) (h : v < 256 ^ 8) :
    deVal (fuel + 1) (0xD3 :: (beBytes 8 v ++ rest)) =
      some (.int (twosComp 64 v), rest) := by
  simp [deVal, readBE_beBytes_of_lt rest h]

theorem deVal_encInt (fuel : Nat) {n : Int} (rest : List Nat)
    (hlo : -(2 ^ 63) ≤ n) (hhi : n < 2 ^ 63) :
    deVal (fuel + 1) (encInt n ++ rest) =
      some (if 0 ≤ n then Doc.uint n.toNat else Doc.int n, rest) := by
  rw [encInt]
  by_cases h0 : 0 ≤ n
  · rw [if_pos h0, if_pos h0]
    exact deVal_encUint fuel rest (by omega)
  · rw [if_neg h0, if_neg h0]
    by_cases h1 : -32 ≤ n
    · rw [if_pos h1]
      simp only [List.cons_append, List.nil_append]
      rw [deVal_fixneg fuel rest (by omega)]
      simp only [Option.some.injEq, Prod.mk.injEq, Doc.int.injEq]
      exact ⟨by omega, trivial⟩
    · rw [if_neg h1]
      by_cases h2 : -(2 ^ 7) ≤ n
      · rw [if_pos h2]
        simp only [List.cons_append, List.nil_append]
        rw [deVal_tagD0 fuel _ rest]
        have ht : twosComp 8 (n + 2 ^ 8).toNat = n := by
          rw [twosComp, if_neg (by norm_num; omega)]
          norm_num
          omega
        rw [ht]
      · rw [if_neg h2]
        by_cases h3 : -(2 ^ 15) ≤ n
        · rw [if_pos h3]
          simp only [List.cons_append]
          rw [deVal_tagD1 fuel _ rest (by norm_num; omega)]
          have ht : twosComp 16 (n + 2 ^ 16).toNat = n := by
            rw [twosComp, if_neg (by norm_num; omega)]
            norm_num
            omega
          rw [ht]
        · rw [if_neg h3]
          by_cases h4 : -(2 ^ 31) ≤ n
          · rw [if_pos h4]
            simp only [List.cons_append]
            rw [deVal_tagD2 fuel _ rest (by norm_num; omega)]
            have ht : twosComp 32 (n + 2 ^ 32).toNat = n := by
              rw [twosComp, if_neg (by norm_num; omega)]
              norm_num
              omega
            rw [ht]
          · rw [if_neg h4]
            simp only [List.cons_append]
            rw [deVal_tagD3 fuel _ rest (by norm_num; omega)]
            have ht : twosComp 64 (n + 2 ^ 64).toNat = n := by
              rw [twosComp, if_neg (by norm_num; omega)]
              norm_num
              omega
            rw [ht]

theorem deVal_encStr (fuel : Nat) {s : List Nat} (rest : List Nat)
    (h : s.length < 2 ^ 32) :
    deVal (fuel + 1) ((encStrHeader s.length ++ s) ++ rest) = some (.str s, rest) := by
  rw [List.append_assoc, encStrHeader]
  by_cases h1 : s.length < 32
  · rw [if_pos h1]
    simp only [List.cons_append, List.nil_append]
    rw [deVal]
    rw [if_neg (by omega), if_neg (by omega), if_neg (by omega), if_pos (by omega)]
    have he : 0xA0 + s.length - 0xA0 = s.length := by omega
    rw [he, readN_append rest rfl]
    rfl
  · rw [if_neg h1]
    by_cases h2 : s.length < 2 ^ 8
    · rw [if_pos h2]
      simp only [List.cons_append, List.nil_append]
      simp [deVal, readBE_one, readN_append rest rfl]
    · rw [if_neg h2]
      by_cases h3 : s.length < 2 ^ 16
      · rw [if_pos h3]
        simp only [List.cons_append]
        simp [deVal, readBE_beBytes_of_lt _ (show s.length < 256 ^ 2 by norm_num at h3 ⊢; omega),
          readN_append rest rfl]
      · rw [if_neg h3]
        simp only [List.cons_append]
        simp [deVal, readBE_beBytes_of_lt _ (show s.length < 256 ^ 4 by norm_num at h ⊢; omega),
          readN_append rest rfl]

theorem deVal_encBin (fuel : Nat) {s : List Nat} (rest : List Nat)
    (h : s.length < 2 ^ 32) :
    deVal (fuel + 1) ((encBinHeader s.length ++ s) ++ rest) = some (.bin s, rest) := by
  rw [List.append_assoc, encBinHeader]
  by_cases h1 : s.length < 2 ^ 8
  · rw [if_pos h1]
    simp only [List.cons_append, List.nil_append]
    simp [deVal, readBE_one, readN_append rest rfl]
  · rw [if_neg h1]
    by_cases h2 : s.length < 2 ^ 16
    · rw [if_pos h2]
      simp only [List.cons_append]
      simp [deVal, readBE_beBytes_of_lt _ (show s.length < 256 ^ 2 by norm_num at h2 ⊢; omega),
        readN_append rest rfl]
    · rw [if_neg h2]
      simp only [List.cons_append]
      simp [deVal, readBE_beBytes_of_lt _ (show s.length < 256 ^ 4 by norm_num at h ⊢; omega),
        readN_append rest rfl]

theorem size_pos (d : Doc) : 1 ≤ Doc.size d := by
  cases d <;> simp [Doc.size]

theorem deArrN_enc_aux (fuel : Nat)
    (ih : ∀ (d : Doc) (rest : List Nat), Doc.wf d = true → Doc.size d ≤ fuel →
      deVal fuel (enc d ++ rest) = some (Doc.norm d, rest)) :
    ∀ (xs : List Doc) (acc : List Doc) (rest : List Nat),
      Doc.wfList xs = true → Doc.sizeList xs ≤ fuel →
      deArrN fuel xs.length acc (encList xs ++ rest) =
        some (.arr (acc ++ Doc.normList xs), rest) := by
  intro xs
  induction xs with
  | nil =>
    intro acc rest _ _
    simp [encList, Doc.normList, deArrN]
  | cons x t iht =>
    intro acc rest hwf hsz
    rw [Doc.wfList, Bool.and_eq_true] at hwf
    rw [Doc.sizeList] at hsz
    rw [encList, List.append_assoc, List.length_cons]
    rw [deArrN]
    rw [ih x _ hwf.1 (by have := size_pos x; omega)]
    show deArrN fuel t.length (acc ++ [Doc.norm x]) (encList t ++ rest) = _
    rw [iht (acc ++ [Doc.norm x]) rest hwf.2 (by have := size_pos x; omega)]
    simp [Doc.normList, List.append_assoc]

theorem deMapN_enc_aux (fuel : Nat)
    (ih : ∀ (d : Doc) (rest : List Nat), Doc.wf d = true → Doc.size d ≤ fuel →
      deVal fuel (enc d ++ rest) = some (Doc.norm d, rest)) :
    ∀ (kvs : List (List Nat × Doc)) (acc : List (List Nat × Doc)) (rest : List Nat),
      Doc.wfKvs kvs = true → Doc.sizeKvs kvs ≤ fuel →
      keysSorted (kvs.map Prod.fst) = true →
      (∀ p ∈ acc, ∀ q ∈ kvs, keyLt p.1 q.1 = true) →
      deMapN fuel kvs.length acc (encKvs kvs ++ rest) =
        some (.obj (acc ++ Doc.normKvs kvs), rest) := by
  intro kvs
  induction kvs with
  | nil =>
    intro acc rest _ _ _ _
    simp [encKvs, Doc.normKvs, deMapN]
  | cons kv t iht =>
    obtain ⟨k, v⟩ := kv
    intro acc rest hwf hsz hsort hlt
    rw [Doc.wfKvs, Bool.and_eq_true, Bool.and_eq_true, Bool.and_eq_true] at hwf
    obtain ⟨⟨⟨_, hklen⟩, hvwf⟩, htwf⟩ := hwf
    rw [Doc.sizeKvs] at hsz
    rw [List.map_cons] at hsort
    obtain ⟨hsort2, hallLt⟩ := keysSorted_cons hsort
    rw [encKvs, List.length_cons]
    rw [deMapN]
    simp only [List.append_assoc]
    rw [deStr_enc _ (by simpa using hklen)]
    show (match deVal fuel (enc v ++ (encKvs t ++ rest)) with
      | some (p, r2) => deMapN fuel t.length (objInsert acc k p) r2
      | none => none) = _
    rw [ih v _ hvwf (by have := size_pos v; omega)]
    show deMapN fuel t.length (objInsert acc k (Doc.norm v)) (encKvs t ++ rest) = _
    rw [objInsert_append (Doc.norm v) (fun p hp => hlt p hp (k, v) (List.mem_cons_self _ _))]
    rw [iht (acc ++ [(k, Doc.norm v)]) rest htwf (by have := size_pos v; omega) hsort2 ?hall]
    case hall =>
      intro p hp q hq
      rcases List.mem_append.mp hp with hp | hp
      · exact hlt p hp q (List.mem_cons_of_mem _ hq)
      · rcases List.mem_singleton.mp hp with rfl
        exact hallLt q.1 (List.mem_map_of_mem Prod.fst hq)
    simp [Doc.normKvs, List.append_assoc]

theorem deVal_enc : ∀ (fuel : Nat) (d : Doc) (rest : List Nat),
    Doc.wf d = true → Doc.size d ≤ fuel →
    deVal fuel (enc d ++ rest) = some (Doc.norm d, rest) := by
  intro fuel
  induction fuel with
  | zero =>
    intro d rest _ hsz
    exact absurd hsz (by have := size_pos d; omega)
  | succ fuel ih =>
    intro d rest hwf hsz
    cases d with
    | null =>
      show deVal (fuel + 1) (0xC0 :: rest) = _
      simp [deVal, Doc.norm]
    | discarded => simp [Doc.wf] at hwf
    | bool b =>
      cases b
      · show deVal (fuel + 1) (0xC2 :: rest) = _
        simp [deVal, Doc.norm]
      · show deVal (fuel + 1) (0xC3 :: rest) = _
        simp [deVal, Doc.norm]
    | int n =>
      rw [Doc.wf, Bool.and_eq_true, decide_eq_true_eq, decide_eq_true_eq] at hwf
      show deVal (fuel + 1) (encInt n ++ rest) = _
      rw [deVal_encInt fuel rest hwf.1 hwf.2, Doc.norm]
    | uint n =>
      rw [Doc.wf, decide_eq_true_eq] at hwf
      show deVal (fuel + 1) (encUint n ++ rest) = _
      rw [deVal_encUint fuel rest hwf]
      simp [Doc.norm]
    | float bits =>
      rw [Doc.wf, decide_eq_true_eq] at hwf
      show deVal (fuel + 1) (0xCB :: (beBytes 8 bits ++ rest)) = _
      simp [deVal, readBE_beBytes_of_lt rest (show bits < 256 ^ 8 by norm_num at hwf ⊢; omega),
        Doc.norm]
    | str s =>
      rw [Doc.wf, Bool.and_eq_true, decide_eq_true_eq] at hwf
      rw [show enc (.str s) = encStrHeader s.length ++ s from rfl]
      rw [deVal_encStr fuel rest hwf.2]
      simp [Doc.norm]
    | bin b =>
      rw [Doc.wf, Bool.and_eq_true, decide_eq_true_eq] at hwf
      rw [show enc (.bin b) = encBinHeader b.length ++ b from rfl]
      rw [deVal_encBin fuel rest hwf.2]
      simp [Doc.norm]
    | arr xs =>
      rw [Doc.wf, Bool.and_eq_true] at hwf
      rw [Doc.size] at hsz
      rw [show enc (.arr xs) = encArrHeader xs.length ++ encList xs from rfl]
      rw [List.append_assoc, encArrHeader]
      by_cases l1 : xs.length < 16
      · rw [if_pos l1]
        show deVal (fuel + 1) ((0x90 + xs.length) :: (encList xs ++ rest)) = _
        rw [deVal]
        rw [if_neg (by omega), if_neg (by omega), if_pos (by omega)]
        have he : 0x90 + xs.length - 0x90 = xs.length := by omega
        rw [he]
        rw [deArrN_enc_aux fuel ih xs [] rest hwf.2 (by omega)]
        simp [Doc.norm]
      · rw [if_neg l1]
        by_cases l2 : xs.length < 2 ^ 16
        · rw [if_pos l2]
          show deVal (fuel + 1) (0xDC :: (beBytes 2 xs.length ++ (encList xs ++ rest))) = _
          simp only [deVal]
          norm_num
          rw [readBE_beBytes_of_lt _ (show xs.length < 256 ^ 2 by norm_num at l2 ⊢; omega)]
          show deArrN fuel xs.length [] (encList xs ++ rest) = _
          rw [deArrN_enc_aux fuel ih xs [] rest hwf.2 (by omega)]
          simp [Doc.norm]
        · rw [if_neg l2]
          show deVal (fuel + 1) (0xDD :: (beBytes 4 xs.length ++ (encList xs ++ rest))) = _
          simp only [deVal]
          norm_num
          rw [readBE_beBytes_of_lt _
            (show xs.length < 256 ^ 4 by
              have := hwf.1
              norm_num at this ⊢
              omega)]
          show deArrN fuel xs.length [] (encList xs ++ rest) = _
          rw [deArrN_enc_aux fuel ih xs [] rest hwf.2 (by omega)]
          simp [Doc.norm]
    | obj kvs =>
      rw [Doc.wf, Bool.and_eq_true, Bool.and_eq_true] at hwf
      obtain ⟨⟨hlen, hsort⟩, hkwf⟩ := hwf
      rw [Doc.size] at hsz
      have hnil : ∀ p ∈ ([] : List (List Nat × Doc)), ∀ q ∈ kvs, keyLt p.1 q.1 = true := by
        intro p hp
        exact absurd hp (List.not_mem_nil p)
      rw [show enc (.obj kvs) = encMapHeader kvs.length ++ encKvs kvs from rfl]
      rw [List.append_assoc, encMapHeader]
      by_cases l1 : kvs.length < 16
      · rw [if_pos l1]
        show deVal (fuel + 1) ((0x80 + kvs.length) :: (encKvs kvs ++ rest)) = _
        rw [deVal]
        rw [if_neg (by omega), if_pos (by omega)]
        have he : 0x80 + kvs.length - 0x80 = kvs.length := by omega
        rw [he]
        rw [deMapN_enc_aux fuel ih kvs [] rest hkwf (by omega) hsort hnil]
        simp [Doc.norm]
      · rw [if_neg l1]
        by_cases l2 : kvs.length < 2 ^ 16
        · rw [if_pos l2]
          show deVal (fuel + 1) (0xDE :: (beBytes 2 kvs.length ++ (encKvs kvs ++ rest))) = _
          simp only [deVal]
          norm_num
          rw [readBE_beBytes_of_lt _ (show kvs.length < 256 ^ 2 by norm_num at l2 ⊢; omega)]
          show deMapN fuel kvs.length [] (encKvs kvs ++ rest) = _
          rw [deMapN_enc_aux fuel ih kvs [] rest hkwf (by omega) hsort hnil]
          simp [Doc.norm]
        · rw [if_neg l2]
          show deVal (fuel + 1) (0xDF :: (beBytes 4 kvs.length ++ (encKvs kvs ++ rest))) = _
          simp only [deVal]
          norm_num
          rw [readBE_beBytes_of_lt _
            (show kvs.length < 256 ^ 4 by
              norm_num at hlen ⊢
              omega)]
          show deMapN fuel kvs.length [] (encKvs kvs ++ rest) = _
          rw [deMapN_enc_aux fuel ih kvs [] rest hkwf (by omega) hsort hnil]
          simp [Doc.norm]

theorem encUint_length_pos (n : Nat) : 1 ≤ (encUint n).length := by
  rw [encUint]
  split_ifs <;> simp [beBytes_length]

theorem encInt_length_pos (n : Int) : 1 ≤ (encInt n).length := by
  rw [encInt]
  split_ifs <;> first | exact encUint_length_pos _ | simp [beBytes_length]

theorem size_le_encList_aux (n : Nat)
    (ih : ∀ d, Doc.size d ≤ n → Doc.wf d = true → Doc.size d ≤ (enc d).length) :
    ∀ xs, Doc.sizeList xs ≤ n → Doc.wfList xs = true →
      Doc.sizeList xs ≤ (encList xs).length := by
  intro xs
  induction xs with
  | nil => intro _ _; simp [Doc.sizeList, encList]
  | cons x t iht =>
    intro hsz hwf
    rw [Doc.sizeList] at hsz ⊢
    rw [Doc.wfList, Bool.and_eq_true] at hwf
    rw [encList, List.length_append]
    have h1 := ih x (by have := size_pos x; omega) hwf.1
    have h2 := iht (by omega) hwf.2
    omega

theorem size_le_encKvs_aux (n : Nat)
    (ih : ∀ d, Doc.size d ≤ n → Doc.wf d = true → Doc.size d ≤ (enc d).length) :
    ∀ kvs, Doc.sizeKvs kvs ≤ n → Doc.wfKvs kvs = true →
      Doc.sizeKvs kvs ≤ (encKvs kvs).length := by
  intro kvs
  induction kvs with
  | nil => intro _ _; simp [Doc.sizeKvs, encKvs]
  | cons kv t iht =>
    obtain ⟨k, v⟩ := kv
    intro hsz hwf
    rw [Doc.sizeKvs] at hsz ⊢
    rw [Doc.wfKvs, Bool.and_eq_true, Bool.and_eq_true, Bool.and_eq_true] at hwf
    obtain ⟨⟨⟨_, _⟩, hvwf⟩, htwf⟩ := hwf
    rw [encKvs]
    simp only [List.length_append]
    have h1 := ih v (by have := size_pos v; omega) hvwf
    have h2 := iht (by omega) htwf
    omega

theorem size_le_enc_sized : ∀ (n : Nat) (d : Doc), Doc.size d ≤ n →
    Doc.wf d = true → Doc.size d ≤ (enc d).length := by
  intro n
  induction n with
  | zero =>
    intro d h _
    have := size_pos d
    omega
  | succ n ih =>
    intro d hsz hwf
    cases d with
    | null => simp [Doc.size, enc]
    | discarded => simp [Doc.wf] at hwf
    | bool b => cases b <;> simp [Doc.size, enc]
    | int m =>
      show Doc.size (.int m) ≤ (encInt m).length
      rw [Doc.size]
      exact encInt_length_pos m
    | uint m =>
      show Doc.size (.uint m) ≤ (encUint m).length
      rw [Doc.size]
      exact encUint_length_pos m
    | float b => simp [Doc.size, enc, beBytes_length]
    | str s =>
      show Doc.size (.str s) ≤ (encStrHeader s.length ++ s).length
      rw [Doc.size, List.length_append, encStrHeader]
      split_ifs <;>
        simp only [List.length_append, List.length_cons, List.length_nil,
          beBytes_length] <;>
        omega
    | bin b =>
      show Doc.size (.bin b) ≤ (encBinHeader b.length ++ b).length
      rw [Doc.size, List.length_append, encBinHeader]
      split_ifs <;>
        simp only [List.length_append, List.length_cons, List.length_nil,
          beBytes_length] <;>
        omega
    | arr xs =>
      rw [Doc.wf, Bool.and_eq_true] at hwf
      rw [Doc.size] at hsz
      show Doc.size (.arr xs) ≤ (encArrHeader xs.length ++ encList xs).length
      rw [Doc.size, List.length_append]
      have h1 := size_le_encList_aux n ih xs (by omega) hwf.2
      have h2 : 1 ≤ (encArrHeader xs.length).length := by
        rw [encArrHeader]
        split_ifs <;> simp [beBytes_length]
      omega
    | obj kvs =>
      rw [Doc.wf, Bool.and_eq_true, Bool.and_eq_true] at hwf
      rw [Doc.size] at hsz
      show Doc.size (.obj kvs) ≤ (encMapHeader kvs.length ++ encKvs kvs).length
      rw [Doc.size, List.length_append]
      have h1 := size_le_encKvs_aux n ih kvs (by omega) hwf.2
      have h2 : 1 ≤ (encMapHeader kvs.length).length := by
        rw [encMapHeader]
        split_ifs <;> simp [beBytes_length]
      omega

theorem size_le_enc {d : Doc} (hwf : Doc.wf d = true) :
    Doc.size d ≤ (enc d).length :=
  size_le_enc_sized (Doc.size d) d le_rfl hwf


/-! ## Lemmas about the pair order and deduplication -/

theorem pairLe_iff {a b : Nat × Int} :
    pairLe a b = true ↔ a.1 < b.1 ∨ (a.1 = b.1 ∧ a.2 ≤ b.2) := by
  obtain ⟨a1, a2⟩ := a
  obtain ⟨b1, b2⟩ := b
  simp only [pairLe, pairLt, Bool.or_eq_true, Bool.and_eq_true, decide_eq_true_eq,
    beq_iff_eq, Prod.mk.injEq]
  omega

theorem pairLe_total (a b : Nat × Int) : pairLe a b = true ∨ pairLe b a = true := by
  rw [pairLe_iff, pairLe_iff]
  omega

theorem pairLe_trans {a b c : Nat × Int} (h1 : pairLe a b = true)
    (h2 : pairLe b c = true) : pairLe a c = true := by
  rw [pairLe_iff] at h1 h2 ⊢
  omega

theorem pairLe_antisymm {a b : Nat × Int} (h1 : pairLe a b = true)
    (h2 : pairLe b a = true) : a = b := by
  rw [pairLe_iff] at h1 h2
  obtain ⟨a1, a2⟩ := a
  obtain ⟨b1, b2⟩ := b
  simp only [Prod.mk.injEq]
  constructor <;> omega

theorem mem_dedupAdj : ∀ {l : List (Nat × Int)} {a : Nat × Int},
    a ∈ dedupAdj l ↔ a ∈ l
  | [], a => by simp [dedupAdj]
  | [b], a => by simp [dedupAdj]
  | b :: c :: t, a => by
    rw [dedupAdj]
    split_ifs with h
    · rw [mem_dedupAdj]
      rw [beq_iff_eq] at h
      subst h
      simp [List.mem_cons]
    · simp only [List.mem_cons, mem_dedupAdj]

theorem dedupAdj_nodup : ∀ {l : List (Nat × Int)},
    l.Pairwise (fun a b => pairLe a b = true) → (dedupAdj l).Nodup
  | [], _ => by simp [dedupAdj]
  | [a], _ => by simp [dedupAdj]
  | a :: b :: t, h => by
    rw [dedupAdj]
    obtain ⟨ha, hbt⟩ := List.pairwise_cons.mp h
    split_ifs with he
    · exact dedupAdj_nodup hbt
    · rw [List.nodup_cons]
      refine ⟨?_, dedupAdj_nodup hbt⟩
      intro hmem
      rw [mem_dedupAdj] at hmem
      have hab : pairLe a b = true := ha b (by simp)
      rcases List.mem_cons.mp hmem with rfl | hmem2
      · simp at he
      · have hba : pairLe b a = true := (List.pairwise_cons.mp hbt).1 a hmem2
        have heq : a = b := pairLe_antisymm hab hba
        simp [heq] at he

theorem mem_sortDedup {l : List (Nat × Int)} {a : Nat × Int} :
    a ∈ sortDedup l ↔ a ∈ l := by
  rw [sortDedup, mem_dedupAdj]
  exact (List.perm_insertionSort _ l).mem_iff

theorem sortDedup_nodup (l : List (Nat × Int)) : (sortDedup l).Nodup :=
  dedupAdj_nodup (List.sorted_insertionSort _ l)

theorem sortDedup_length (l : List (Nat × Int)) :
    (sortDedup l).length = l.dedup.length := by
  have h1 := sortDedup_nodup l
  have h2 : (sortDedup l).toFinset = l.toFinset := by
    ext a
    simp [List.mem_toFinset, mem_sortDedup]
  have h3 := List.toFinset_card_of_nodup h1
  rw [h2] at h3
  rw [← h3, List.card_toFinset]

theorem getD_map_indexOf {l : List (Nat × Int)} {k : Nat × Int} (hk : k ∈ l)
    (f : (Nat × Int) → Doc) :
    (l.map f).getD (l.indexOf k) Doc.discarded = f k := by
  induction l with
  | nil => cases hk
  | cons a t ih =>
    by_cases he : a = k
    · subst he
      simp [List.indexOf_cons, List.getD]
    · have hk2 : k ∈ t := by
        rcases List.mem_cons.mp hk with rfl | h2
        · exact absurd rfl he
        · exact h2
      have hne : (a == k) = false := by simp [he]
      have ih2 := ih hk2
      simp only [List.getD_eq_getElem?_getD, List.getElem?_map] at ih2 ⊢
      simp only [List.indexOf_cons, hne, cond_false, List.map_cons,
        List.getElem?_cons_succ]
      exact ih2

theorem sortDedup_lookup {l : List (Nat × Int)} {k : Nat × Int} (hk : k ∈ l)
    (f : (Nat × Int) → Doc) :
    ((sortDedup l).map f).getD (offsetInSorted (sortDedup l) k) Doc.discarded = f k := by
  rw [offsetInSorted]
  exact getD_map_indexOf (mem_sortDedup.mpr hk) f

theorem allAscending_pairwise : ∀ {l : List Int},
    allAscending l = true → l.Pairwise (fun a b => a < b)
  | [], _ => by simp
  | [a], _ => by simp
  | a :: b :: t, h => by
    rw [allAscending, Bool.and_eq_true, decide_eq_true_eq] at h
    have ht := allAscending_pairwise h.2
    rw [List.pairwise_cons]
    refine ⟨?_, ht⟩
    intro c hc
    rcases List.mem_cons.mp hc with rfl | hc2
    · exact h.1
    · exact lt_trans h.1 ((List.pairwise_cons.mp ht).1 c hc2)

theorem ascending_colKey_nodup {places : List Place}
    (h : allAscending (places.map Place.key) = true) :
    (places.map Place.colKey).Nodup := by
  have hp := allAscending_pairwise h
  rw [List.pairwise_map] at hp
  rw [List.Nodup, List.pairwise_map]
  exact hp.imp (fun hlt heq => absurd (congrArg Prod.snd heq) (by
    simp only [Place.colKey]
    exact fun he => absurd he (ne_of_lt hlt)))

theorem read_docs_eq (places : List Place) (st : Store) :
    read_docs places st =
      if allAscending (places.map Place.key) then read_unique_docs places st
      else if (sortDedup (places.map Place.colKey)).length = places.length then
        read_unique_docs places st
      else
        { kvReads := sortDedup (places.map Place.colKey)
          parsed := sortDedup (places.map Place.colKey)
          calls := places.enum.map (fun p =>
            (p.1, p.2.field,
              ((sortDedup (places.map Place.colKey)).map (parseStore st)).getD
                (offsetInSorted (sortDedup (places.map Place.colKey)) p.2.colKey)
                Doc.discarded))
          writeOrder := sortDedup (places.map Place.colKey) } := rfl

/-! ## Claim theorems -/

theorem parseMsgpack_enc {d : Doc} (hwf : Doc.wf d = true) :
    parseMsgpack (enc d) = Doc.norm d := by
  rw [parseMsgpack]
  have h2 := deVal_enc ((enc d).length + 1) d [] hwf
    (by have := size_le_enc hwf; omega)
  rw [List.append_nil] at h2
  rw [h2]

/-- C3: in every batched read, the planner invokes the per-task callback
exactly once per input tuple, in the caller's original order — whatever the
duplicates and ordering of the input — handing task `i` its own field
selector together with the parsed document of its own `(collection, key)`
pair; consequently, on the document path of `ukv_docs_read`, the `i`-th
tape entry is the dump of the `i`-th task's looked-up part. -/
theorem C3_caller_order :
    (∀ (places : List Place) (st : Store),
      (read_docs places st).calls =
        places.enum.map (fun p => (p.1, p.2.field, parseStore st p.2.colKey))) ∧
    (∀ (a : DocsReadArgs) (st : Store),
      ¬(¬hasFields a.fields = true ∧ a.format = internalFormat) →
      (ukv_docs_read a st).entries =
        a.places.map (fun p =>
          tapeEntry (readPart (parseStore st p.colKey) p.field) a.format)) := by
  have main : ∀ (places : List Place) (st : Store),
      (read_docs places st).calls =
        places.enum.map (fun p => (p.1, p.2.field, parseStore st p.2.colKey)) := by
    intro places st
    rw [read_docs_eq]
    split_ifs with h1 h2
    · rfl
    · rfl
    · show places.enum.map _ = places.enum.map _
      apply List.map_congr_left
      rw [List.forall_mem_enum]
      intro i hi
      have hmem : places[i] ∈ places := List.getElem_mem hi
      have hkmem : places[i].colKey ∈ places.map Place.colKey :=
        List.mem_map_of_mem Place.colKey hmem
      simp only
      rw [sortDedup_lookup hkmem (parseStore st)]
  refine ⟨main, ?_⟩
  intro a st h
  rw [ukv_docs_read, if_neg (by simpa using h)]
  simp only [main a.places st, List.map_map]
  have he : a.places.enum.map Prod.snd = a.places := List.enum_map_snd a.places
  conv_rhs => rw [← he]
  rw [List.map_map]
  rfl

/-- C4: in every batched read — duplicates and arbitrary order included —
the pairs requested from the underlying `kv_read` are exactly as many as
the distinct `(collection, key)` pairs of the input, the requested pairs
hold no duplicates, and the sequence of pairs whose bytes are parsed is
exactly the requested sequence, so each unique document is parsed once. -/
theorem C4_dedup_reads (places : List Place) (st : Store) :
    (read_docs places st).kvReads.length = (places.map Place.colKey).dedup.length ∧
    (read_docs places st).kvReads.Nodup ∧
    (read_docs places st).parsed = (read_docs places st).kvReads := by
  rw [read_docs_eq]
  split_ifs with h1 h2
  · have hnd := ascending_colKey_nodup h1
    refine ⟨?_, hnd, rfl⟩
    rw [List.dedup_eq_self.mpr hnd, read_unique_docs]
  · have hdl : (places.map Place.colKey).dedup.length = places.length := by
      rw [← sortDedup_length]
      exact h2
    have hsub := List.dedup_sublist (places.map Place.colKey)
    have heq : (places.map Place.colKey).dedup = places.map Place.colKey :=
      hsub.eq_of_length (by simpa using hdl)
    have hnd : (places.map Place.colKey).Nodup := by
      rw [← heq]
      exact List.nodup_dedup _
    refine ⟨?_, hnd, rfl⟩
    show (places.map Place.colKey).length = _
    simpa using hdl.symm
  · exact ⟨sortDedup_length _, sortDedup_nodup _, rfl⟩

/-- C3, witness: the caller-order correspondence at a concrete read. -/
theorem C3_caller_order_witness :
    ¬(¬hasFields (DocsReadArgs.mk [(0, 7)] FieldsArg.absent Fmt.binary).fields = true ∧
        (DocsReadArgs.mk [(0, 7)] FieldsArg.absent Fmt.binary).format = internalFormat) ∧
    (ukv_docs_read (DocsReadArgs.mk [(0, 7)] FieldsArg.absent Fmt.binary)
        (fun _ => none)).entries =
      (DocsReadArgs.mk [(0, 7)] FieldsArg.absent Fmt.binary).places.map (fun p =>
        tapeEntry (readPart (parseStore (fun _ => none) p.colKey) p.field)
          (DocsReadArgs.mk [(0, 7)] FieldsArg.absent Fmt.binary).format) :=
  ⟨by decide,
    C3_caller_order.2 (DocsReadArgs.mk [(0, 7)] FieldsArg.absent Fmt.binary)
      (fun _ => none) (by decide)⟩

theorem replaceTape_none {fmt : Fmt} : ∀ {contents : List (List Nat)},
    (∃ c ∈ contents, (parse_any c fmt).isDiscarded = true) →
    replaceTape fmt contents = none
  | [], h => absurd h (by simp)
  | c :: ct, h => by
    simp only [replaceTape]
    by_cases hd : (parse_any c fmt).isDiscarded = true
    · rw [if_pos hd]
    · rw [if_neg hd]
      rcases h with ⟨x, hx, hxd⟩
      rcases List.mem_cons.mp hx with rfl | hx2
      · exact absurd hxd hd
      · rw [replaceTape_none ⟨x, hx2, hxd⟩]

/-- C5: in every whole-document batched write — `replace_docs` of the
deprecated modality and `update_docs` of `logic_docs.cpp` alike — a content
that fails to parse in the caller's format aborts the whole batch with a
parse error before any KV write, leaving the store unchanged. -/
theorem C5_parse_error_aborts (places : List Place) (pairs : List (Nat × Int))
    (contents : List (List Nat)) (fmt : Fmt) (st : Store)
    (h : ∃ c ∈ contents, (parse_any c fmt).isDiscarded = true) :
    replace_docs places contents fmt st =
      { store := st, error := some ErrCode.parseFailed, wrote := false } ∧
    logic_update_docs pairs contents fmt st =
      { store := st, error := some ErrCode.parseFailed, wrote := false } := by
  have hr := replaceTape_none h
  rw [replace_docs, logic_update_docs, hr]
  exact ⟨rfl, rfl⟩

/-- C5, witness: the reserved MessagePack marker `0xC1` parses to the
discarded state and aborts a concrete batch. -/
theorem C5_parse_error_aborts_witness :
    (∃ c ∈ [[193]], (parse_any c Fmt.msgpack).isDiscarded = true) ∧
    (replace_docs [] [[193]] Fmt.msgpack (fun _ => none) =
        { store := fun _ => none, error := some ErrCode.parseFailed, wrote := false } ∧
      logic_update_docs [] [[193]] Fmt.msgpack (fun _ => none) =
        { store := fun _ => none, error := some ErrCode.parseFailed, wrote := false }) :=
  ⟨⟨[193], by simp, by simp [parse_any, parseMsgpack, deVal, Doc.isDiscarded]⟩,
    C5_parse_error_aborts [] [] [[193]] Fmt.msgpack (fun _ => none)
      ⟨[193], by simp, by simp [parse_any, parseMsgpack, deVal, Doc.isDiscarded]⟩⟩

/-- C6: a call that declares the internal format and supplies no field
selectors forwards verbatim to the KV engine — the write stores the
caller's bytes under the caller's pairs, the read returns the raw stored
bytes per pair with zero document parses, and the `logic_docs.cpp` write
dispatcher does the same — so the result equals the plain KV operation. -/
theorem C6_internal_passthrough (wa : DocsWriteArgs) (ra : DocsReadArgs)
    (pairs : List (Nat × Int)) (contents : List (List Nat)) (st : Store)
    (hw1 : hasFields wa.fields = false) (hw2 : wa.format = internalFormat)
    (hr1 : hasFields ra.fields = false) (hr2 : ra.format = internalFormat) :
    ukv_docs_write wa st =
      some { store := kv_write (wa.pairs.zip (wa.contents.map some)) st
             error := none
             wrote := true } ∧
    ukv_docs_read ra st = { entries := ra.pairs.map st, parses := 0 } ∧
    logic_ukv_docs_write pairs none internalFormat contents st =
      { store := kv_write (pairs.zip (contents.map some)) st
        error := none
        wrote := true } := by
  refine ⟨?_, ?_, ?_⟩
  · rw [ukv_docs_write, if_pos ⟨by simp [hw1], hw2⟩]
  · rw [ukv_docs_read, if_pos ⟨by simp [hr1], hr2⟩]
  · rw [logic_ukv_docs_write, if_pos ⟨rfl, rfl⟩]

/-- C6, witness: the passthrough at a concrete call. -/
theorem C6_internal_passthrough_witness :
    hasFields (DocsWriteArgs.mk [(0, 1)] FieldsArg.absent Fmt.msgpack [[2]]).fields =
        false ∧
    (DocsWriteArgs.mk [(0, 1)] FieldsArg.absent Fmt.msgpack [[2]]).format =
        internalFormat ∧
    hasFields (DocsReadArgs.mk [(0, 1)] FieldsArg.absent Fmt.msgpack).fields = false ∧
    (DocsReadArgs.mk [(0, 1)] FieldsArg.absent Fmt.msgpack).format = internalFormat ∧
    (ukv_docs_write (DocsWriteArgs.mk [(0, 1)] FieldsArg.absent Fmt.msgpack [[2]])
        (fun _ => none) =
      some { store := kv_write ([(0, 1)].zip ([[2]].map some)) (fun _ => none)
             error := none
             wrote := true } ∧
    ukv_docs_read (DocsReadArgs.mk [(0, 1)] FieldsArg.absent Fmt.msgpack)
        (fun _ => none) =
      { entries := [(0, 1)].map (fun _ => none), parses := 0 } ∧
    logic_ukv_docs_write [(0, 1)] none internalFormat [[2]] (fun _ => none) =
      { store := kv_write ([(0, 1)].zip ([[2]].map some)) (fun _ => none)
        error := none
        wrote := true }) :=
  ⟨rfl, rfl, rfl, rfl,
    C6_internal_passthrough (DocsWriteArgs.mk [(0, 1)] FieldsArg.absent Fmt.msgpack [[2]])
      (DocsReadArgs.mk [(0, 1)] FieldsArg.absent Fmt.msgpack)
      [(0, 1)] [[2]] (fun _ => none) rfl rfl rfl rfl⟩

/-- C10: in the `logic_docs.cpp` dispatcher, a write that supplies field
selectors (with a non-internal format and at least one task) lands in
`update_fields`, which issues no KV write and sets no error: the call
reports success while the store is untouched. -/
theorem C10_update_fields_noop (pairs : List (Nat × Int))
    (fs : List (Option (List Nat))) (fmt : Fmt) (contents : List (List Nat))
    (st : Store) (hfmt : fmt ≠ internalFormat) (hne : pairs ≠ []) :
    logic_ukv_docs_write pairs (some fs) fmt contents st =
      { store := st, error := none, wrote := false } := by
  rw [logic_ukv_docs_write, if_neg (by simp)]
  rw [logic_update_fields]
  cases pairs with
  | nil => exact absurd rfl hne
  | cons p t => simp [List.replicate_succ, Doc.isDiscarded]

/-- C1: the `read_modify_write` callback patches through the reference the
field lookup produced, and the document pushed onto the serialization tape
is that patched subtree, not the whole modified document — storing the
member name `a` of `{"a": {"b": 1}}` with the value `2` leaves the KV store
holding the dump of `2` itself, which differs from the dump of the entire
modified document `{"a": 2}`. -/
theorem C1_subtree_written :
    rmwStep c1Doc (some [97]) (Doc.uint 2) Fmt.msgpack =
      some (Doc.obj [([97], Doc.uint 2)], Doc.uint 2) ∧
    (∃ out, read_modify_write [{ col := 0, key := 42, field := some [97] }]
        [enc (Doc.uint 2)] Fmt.msgpack c1Store = some out ∧
      out.store (0, 42) = some (enc (Doc.uint 2))) ∧
    enc (Doc.uint 2) ≠ enc (Doc.obj [([97], Doc.uint 2)]) := by
  have hstep : rmwStep c1Doc (some [97]) (Doc.uint 2) Fmt.msgpack =
      some (Doc.obj [([97], Doc.uint 2)], Doc.uint 2) := by
    simp [rmwStep, lookup_field, c1Doc, lookupKv, docGet, docSet, setKv]
  have htask : parse_any ([enc (Doc.uint 2)].getD 0 []) Fmt.msgpack = Doc.uint 2 := by
    show parseMsgpack (enc (Doc.uint 2)) = Doc.uint 2
    rw [parseMsgpack_enc (by decide)]
    rfl
  have hparsed : parseStore c1Store (0, 42) = c1Doc := by
    show parse_any (storeBytes c1Store (0, 42)) internalFormat = c1Doc
    rw [show storeBytes c1Store (0, 42) = enc c1Doc from rfl]
    show parseMsgpack (enc c1Doc) = c1Doc
    rw [parseMsgpack_enc (by decide)]
    rfl
  have hloop : rmwFastLoop [enc (Doc.uint 2)] Fmt.msgpack c1Store
      [(0, ({ col := 0, key := 42, field := some [97] } : Place))] =
      some [enc (Doc.uint 2)] := by
    simp only [rmwFastLoop]
    rw [show Place.colKey { col := 0, key := 42, field := some [97] } = (0, 42) from rfl,
      hparsed, htask, hstep]
  have h1 : read_modify_write [{ col := 0, key := 42, field := some [97] }]
      [enc (Doc.uint 2)] Fmt.msgpack c1Store =
      some { store := kv_write [((0, 42), some (enc (Doc.uint 2)))] c1Store
             error := none
             wrote := true } := by
    simp only [read_modify_write]
    rw [if_pos (by decide)]
    rw [show List.enum [({ col := 0, key := 42, field := some [97] } : Place)] =
      [(0, ({ col := 0, key := 42, field := some [97] } : Place))] from rfl]
    rw [hloop]
    rfl
  refine ⟨hstep, ⟨_, h1, ?_⟩, by decide⟩
  rfl

/-- The `bool` target's parser writes a payload on success. -/
theorem boolDesc_writes : DescWrites boolDesc := by
  intro s h
  have h2 : (boolFromChars s).ok = true := h
  show (boolFromChars s).written ≠ none
  rw [boolFromChars] at h2 ⊢
  split_ifs at h2 ⊢ <;> simp_all

/-- C7, counterexample: in the binary source case `export_scalar_column`
copies the payload after setting the validity bit, so a cell it marks valid
has its update sequence end with the payload copy, not the validity
write. -/
theorem C7_counterexample :
    (runUpds { valid := false, convt := false, collide := false, payload := none }
        (export_scalar_column (intDesc true 4) (Doc.bin [1, 2, 3, 4]))).valid = true ∧
    (export_scalar_column (intDesc true 4) (Doc.bin [1, 2, 3, 4])).getLast? =
      some (CellUpd.payload [1, 2, 3, 4]) := by
  constructor <;> decide

/-- C7, amended: for every gather cell of either column kind, validity and
collision are never both set after the cell's update sequence; a valid cell
holds exactly the coerced payload (length, bytes and text for the string
column); and the validity bit is written exactly once, after every
conversion and collision bit write — though not necessarily after the
payload copy. -/
theorem C7_cell_invariant (t : ScalarDesc) (v : Doc) (init : CellState) (spos : Nat)
    (hw : DescWrites t) :
    (¬((runUpds init (export_scalar_column t v)).valid = true ∧
       (runUpds init (export_scalar_column t v)).collide = true)) ∧
    ((runUpds init (export_scalar_column t v)).valid = true →
      (runUpds init (export_scalar_column t v)).payload = scalarCoerce t v) ∧
    bitsOrdered (export_scalar_column t v) = true ∧
    (¬((runStrUpds strCell0 (export_string_column v spos)).valid = true ∧
       (runStrUpds strCell0 (export_string_column v spos)).collide = true)) ∧
    ((runStrUpds strCell0 (export_string_column v spos)).valid = true →
      ∃ p, stringCoerce v = some p ∧
        (runStrUpds strCell0 (export_string_column v spos)).len = some (some p.1) ∧
        (runStrUpds strCell0 (export_string_column v spos)).appended = p.2) ∧
    strBitsOrdered (export_string_column v spos) = true := by
  refine ⟨?_, ?_, ?_, ?_, ?_, ?_⟩
  · cases v
    case bin b =>
      by_cases hb : b.length = t.width <;>
        simp [export_scalar_column, hb, runUpds, applyUpd]
    case str s =>
      cases hww : (t.fromChars s).written <;>
        by_cases hok : ((t.fromChars s).ok &&
            (t.fromChars s).consumed == s.length) = true <;>
          simp [export_scalar_column, hww, hok, runUpds, applyUpd]
    all_goals simp [export_scalar_column, runUpds, applyUpd]
  · cases v
    case bin b =>
      by_cases hb : b.length = t.width <;>
        simp [export_scalar_column, hb, runUpds, applyUpd, scalarCoerce]
    case str s =>
      cases hww : (t.fromChars s).written with
      | none =>
        by_cases hok : ((t.fromChars s).ok &&
            (t.fromChars s).consumed == s.length) = true
        · intro _
          rw [Bool.and_eq_true] at hok
          exact absurd hww (hw s hok.1)
        · simp [export_scalar_column, hww, hok, runUpds, applyUpd]
      | some bs =>
        by_cases hok : ((t.fromChars s).ok &&
            (t.fromChars s).consumed == s.length) = true <;>
          simp [export_scalar_column, hww, hok, runUpds, applyUpd, scalarCoerce]
    all_goals simp [export_scalar_column, runUpds, applyUpd, scalarCoerce]
  · cases v
    case bin b =>
      by_cases hb : b.length = t.width <;>
        simp [export_scalar_column, hb, bitsOrdered, CellUpd.isValid, CellUpd.isOtherBit]
    case str s =>
      cases hww : (t.fromChars s).written <;>
        by_cases hok : ((t.fromChars s).ok &&
            (t.fromChars s).consumed == s.length) = true <;>
          simp [export_scalar_column, hww, hok, bitsOrdered, CellUpd.isValid,
            CellUpd.isOtherBit]
    all_goals simp [export_scalar_column, bitsOrdered, CellUpd.isValid, CellUpd.isOtherBit]
  · cases v
    case bool b =>
      cases b <;> simp [strCell0, export_string_column, runStrUpds, applyStrUpd]
    case int n =>
      simp [strCell0, export_string_column, print_scalar_int, runStrUpds, applyStrUpd]
    case uint n =>
      simp [strCell0, export_string_column, print_scalar_uint, runStrUpds, applyStrUpd]
    case float bits =>
      cases hp : print_scalar_float bits <;>
        simp [strCell0, export_string_column, hp, runStrUpds, applyStrUpd]
    all_goals simp [strCell0, export_string_column, runStrUpds, applyStrUpd]
  · cases v
    case bin b =>
      intro _
      refine ⟨(b.length, b), rfl, ?_, ?_⟩ <;>
        simp [strCell0, export_string_column, runStrUpds, applyStrUpd]
    case str s =>
      intro _
      refine ⟨(s.length, s ++ [0]), rfl, ?_, ?_⟩ <;>
        simp [strCell0, export_string_column, runStrUpds, applyStrUpd]
    case bool b =>
      cases b with
      | true =>
        intro _
        refine ⟨(5, [116, 114, 117, 101, 0]), rfl, ?_, ?_⟩ <;>
          simp [strCell0, export_string_column, runStrUpds, applyStrUpd]
      | false =>
        intro _
        refine ⟨(6, [102, 97, 108, 115, 101, 0]), rfl, ?_, ?_⟩ <;>
          simp [strCell0, export_string_column, runStrUpds, applyStrUpd]
    case int n =>
      intro _
      refine ⟨((intDecimal n ++ [0]).length, intDecimal n ++ [0]),
          by simp [stringCoerce, print_scalar_int], ?_, ?_⟩ <;>
        simp [strCell0, export_string_column, print_scalar_int, runStrUpds, applyStrUpd]
    case uint n =>
      intro _
      refine ⟨((natDecimal n ++ [0]).length, natDecimal n ++ [0]),
          by simp [stringCoerce, print_scalar_uint], ?_, ?_⟩ <;>
        simp [strCell0, export_string_column, print_scalar_uint, runStrUpds, applyStrUpd]
    case float bits =>
      cases hp : print_scalar_float bits with
      | none => simp [strCell0, export_string_column, hp, runStrUpds, applyStrUpd]
      | some bs =>
        intro _
        refine ⟨(bs.length, bs), ?_, ?_, ?_⟩
        · simp [stringCoerce, hp]
        · simp [strCell0, export_string_column, hp, runStrUpds, applyStrUpd]
        · simp [strCell0, export_string_column, hp, runStrUpds, applyStrUpd]
    all_goals simp [strCell0, export_string_column, runStrUpds, applyStrUpd]
  · cases v
    case bool b =>
      cases b <;> simp [strCell0, export_string_column, strBitsOrdered, StrUpd.isValid,
        StrUpd.isOtherBit]
    case int n =>
      simp [strCell0, export_string_column, print_scalar_int, strBitsOrdered, StrUpd.isValid,
        StrUpd.isOtherBit]
    case uint n =>
      simp [strCell0, export_string_column, print_scalar_uint, strBitsOrdered, StrUpd.isValid,
        StrUpd.isOtherBit]
    case float bits =>
      cases hp : print_scalar_float bits <;>
        simp [strCell0, export_string_column, hp, strBitsOrdered, StrUpd.isValid, StrUpd.isOtherBit]
    all_goals simp [strCell0, export_string_column, strBitsOrdered, StrUpd.isValid, StrUpd.isOtherBit]

/-- C7, witness: the invariant at the `bool` target and a null value. -/
theorem C7_cell_invariant_witness :
    DescWrites boolDesc ∧
    ((¬((runUpds cell0 (export_scalar_column boolDesc Doc.null)).valid = true ∧
        (runUpds cell0 (export_scalar_column boolDesc Doc.null)).collide = true)) ∧
      ((runUpds cell0 (export_scalar_column boolDesc Doc.null)).valid = true →
        (runUpds cell0 (export_scalar_column boolDesc Doc.null)).payload =
            scalarCoerce boolDesc Doc.null) ∧
      bitsOrdered (export_scalar_column boolDesc Doc.null) = true ∧
      (¬((runStrUpds strCell0 (export_string_column Doc.null 0)).valid = true ∧
        (runStrUpds strCell0 (export_string_column Doc.null 0)).collide = true)) ∧
      ((runStrUpds strCell0 (export_string_column Doc.null 0)).valid = true →
        ∃ p, stringCoerce Doc.null = some p ∧
          (runStrUpds strCell0 (export_string_column Doc.null 0)).len =
              some (some p.1) ∧
          (runStrUpds strCell0 (export_string_column Doc.null 0)).appended = p.2) ∧
      strBitsOrdered (export_string_column Doc.null 0) = true) :=
  ⟨boolDesc_writes, C7_cell_invariant boolDesc Doc.null cell0 0 boolDesc_writes⟩

/-- C8: a string-sourced scalar gather cell is marked valid exactly when the
target's parser succeeds and consumes the whole string; a cell not marked
valid has its collision bit set; and for the `bool` target the full parse
succeeds exactly on the literals `true` and `false`. -/
theorem C8_string_full_parse (t : ScalarDesc) (s : List Nat) (init : CellState) :
    ((runUpds init (export_scalar_column t (Doc.str s))).valid = true ↔
      ((t.fromChars s).ok = true ∧ (t.fromChars s).consumed = s.length)) ∧
    ((runUpds init (export_scalar_column t (Doc.str s))).valid = true ∨
      (runUpds init (export_scalar_column t (Doc.str s))).collide = true) ∧
    ((boolFromChars s).ok = true ∧ (boolFromChars s).consumed = s.length ↔
      s = [116, 114, 117, 101] ∨ s = [102, 97, 108, 115, 101]) := by
  have hmain : (runUpds init (export_scalar_column t (Doc.str s))).valid =
      ((t.fromChars s).ok && (t.fromChars s).consumed == s.length) ∧
      (runUpds init (export_scalar_column t (Doc.str s))).collide =
      !((t.fromChars s).ok && (t.fromChars s).consumed == s.length) := by
    cases hww : (t.fromChars s).written <;>
      cases hok : ((t.fromChars s).ok && (t.fromChars s).consumed == s.length) <;>
        simp [export_scalar_column, hww, hok, runUpds, applyUpd]
  refine ⟨?_, ?_, ?_⟩
  · rw [hmain.1]
    simp [Bool.and_eq_true, beq_iff_eq]
  · rw [hmain.1, hmain.2]
    cases ((t.fromChars s).ok && (t.fromChars s).consumed == s.length) <;> simp
  · rw [boolFromChars]
    split_ifs with h1 h2
    · rw [beq_iff_eq] at h1
      simp [h1]
    · rw [beq_iff_eq] at h2
      simp [h2]
    · rw [beq_iff_eq] at h1 h2
      simp [h1, h2]

/-- C9, counterexample: a binary blob of exactly the target width sets the
conversion bit rather than clearing it. -/
theorem C9_counterexample :
    (runUpds { valid := false, convt := false, collide := false, payload := none }
        (export_scalar_column (intDesc true 4) (Doc.bin [9, 9, 9, 9]))).convt =
      true := by
  decide

/-- C9, amended: a binary blob of exactly the target width is copied into
the scalar slot with validity set and collision clear, but the conversion
bit is set, not cleared; any other length sets collision and clears
validity, conversion and the slot untouched. -/
theorem C9_binary_cells (t : ScalarDesc) (b : List Nat) (init : CellState) :
    runUpds init (export_scalar_column t (Doc.bin b)) =
      if b.length = t.width then
        { valid := true, convt := true, collide := false, payload := some b }
      else
        { valid := false, convt := false, collide := true, payload := init.payload } := by
  rw [export_scalar_column]
  split_ifs with h <;> rfl

/-- C10, witness: a concrete fielded write that silently writes nothing. -/
theorem C10_update_fields_noop_witness :
    Fmt.json ≠ internalFormat ∧ ([(0, 1)] : List (Nat × Int)) ≠ [] ∧
    logic_ukv_docs_write [(0, 1)] (some [some [97]]) Fmt.json [[2]] (fun _ => none) =
      { store := fun _ => none, error := none, wrote := false } :=
  ⟨by decide, by decide,
    C10_update_fields_noop [(0, 1)] [some [97]] Fmt.json [[2]] (fun _ => none)
      (by decide) (by decide)⟩

end Ukv
